import Mathlib

/-!
Verification of the long-running-operation supervisor in
`src/memory/sql_session.py` (the file contains both the `SQLiteSession`
key/value store and the operation manager: `_simulate_task`,
`start_operation`, `pause_operation`, `resume_operation`,
`cancel_operation`, `list_operations`).

The embedding is executable: JSON values (`J`), a printer/parser pair
modelling Python's `json.dumps` / `json.loads` (the store persists
serialized text, exactly as the source does), the store itself, and a
small-step event semantics of the manager.  Reachable system states are
those produced by a list of events run from the empty store.
-/

/-- JSON values, the serializable data the store holds.  Python dicts are
modelled as insertion-ordered association lists, as Python 3 dicts are.
Floats do not occur in the supervisor's records and are omitted. -/
inductive J where
  | null : J
  | b : Bool → J
  | i : Int → J
  | s : String → J
  | arr : List J → J
  | obj : List (String × J) → J
deriving Repr, Inhabited

/-- Python truthiness of a JSON-decoded value (`if not meta:` in the
source): `None`, `False`, `0`, `""`, `[]`, `{}` are falsy. -/
def pyTruthy : J → Bool
  | .null => false
  | .b x => x
  | .i n => n != 0
  | .s str => str != ""
  | .arr l => !l.isEmpty
  | .obj m => !m.isEmpty

/-- Python `d.get(k)` on a dict modelled as an association list. -/
def objGet (m : List (String × J)) (k : String) : Option J :=
  m.lookup k

/-- Python `d[k] = v` on a dict: replace the value at the first matching
key in place, or append the key at the end (insertion order). -/
def objSet (m : List (String × J)) (k : String) (v : J) : List (String × J) :=
  match m with
  | [] => [(k, v)]
  | (k', v') :: rest =>
    if k' = k then (k', v) :: rest else (k', v') :: objSet rest k v

/-- Python `d1.update(d2)`: set every key of `d2` in `d1`, in order. -/
def dictUpdate (m : List (String × J)) (upd : List (String × J)) :
    List (String × J) :=
  upd.foldl (fun acc kv => objSet acc kv.1 kv.2) m

/-- Python `st.get("status") == "lit"`: true exactly when the value is the
given string (comparing a missing key / non-string value with a string
literal is `False` in Python). -/
def isStrVal (o : Option J) (lit : String) : Bool :=
  match o with
  | some (.s x) => x == lit
  | _ => false

/-! ## `json.dumps` (default separators `", "` and `": "`, `ensure_ascii`) -/

/-- One character of a JSON string literal as `json.dumps` emits it:
`"` and `\` are backslash-escaped, the five C short escapes are used,
other printable ASCII passes through, everything else becomes `\uXXXX`
(with a surrogate pair above `0xFFFF`), lowercase hex as in CPython. -/
def escChar (c : Char) : List Char :=
  if c = '"' then ['\\', '"']
  else if c = '\\' then ['\\', '\\']
  else if c.toNat = 8 then ['\\', 'b']
  else if c.toNat = 9 then ['\\', 't']
  else if c.toNat = 10 then ['\\', 'n']
  else if c.toNat = 12 then ['\\', 'f']
  else if c.toNat = 13 then ['\\', 'r']
  else if 0x20 ≤ c.toNat ∧ c.toNat ≤ 0x7e then [c]
  else if c.toNat < 0x10000 then
    '\\' :: 'u' :: Nat.digitChar (c.toNat / 4096 % 16) ::
      Nat.digitChar (c.toNat / 256 % 16) :: Nat.digitChar (c.toNat / 16 % 16) ::
      Nat.digitChar (c.toNat % 16) :: []
  else
    '\\' :: 'u' ::
      Nat.digitChar ((0xd800 + (c.toNat - 0x10000) / 0x400) / 4096 % 16) ::
      Nat.digitChar ((0xd800 + (c.toNat - 0x10000) / 0x400) / 256 % 16) ::
      Nat.digitChar ((0xd800 + (c.toNat - 0x10000) / 0x400) / 16 % 16) ::
      Nat.digitChar ((0xd800 + (c.toNat - 0x10000) / 0x400) % 16) ::
      '\\' :: 'u' ::
      Nat.digitChar ((0xdc00 + (c.toNat - 0x10000) % 0x400) / 4096 % 16) ::
      Nat.digitChar ((0xdc00 + (c.toNat - 0x10000) % 0x400) / 256 % 16) ::
      Nat.digitChar ((0xdc00 + (c.toNat - 0x10000) % 0x400) / 16 % 16) ::
      Nat.digitChar ((0xdc00 + (c.toNat - 0x10000) % 0x400) % 16) :: []

/-- Body of a JSON string literal (no quotes). -/
def escBody (l : List Char) : List Char :=
  l.foldr (fun c acc => escChar c ++ acc) []

/-- A complete JSON string literal. -/
def escString (str : String) : List Char :=
  '"' :: (escBody str.data ++ ['"'])

/-- Decimal digits of a natural number, most significant first, as
Python `repr` prints it. -/
def natChars (n : Nat) : List Char :=
  if n = 0 then ['0'] else (Nat.digits 10 n).reverse.map Nat.digitChar

/-- Python `repr` of an int. -/
def intChars (m : Int) : List Char :=
  if m < 0 then '-' :: natChars (-m).toNat else natChars m.toNat

mutual
/-- `json.dumps` of one value, as a character list. -/
def dumpV : J → List Char
  | .null => ['n', 'u', 'l', 'l']
  | .b true => ['t', 'r', 'u', 'e']
  | .b false => ['f', 'a', 'l', 's', 'e']
  | .i m => intChars m
  | .s str => escString str
  | .arr [] => ['[', ']']
  | .arr (x :: xs) => '[' :: (dumpV x ++ dumpItems xs ++ [']'])
  | .obj [] => ['{', '}']
  | .obj ((k, v) :: fs) =>
    '{' :: (escString k ++ ':' :: ' ' :: dumpV v ++ dumpFields fs ++ ['}'])

/-- Remaining array items, each preceded by `", "`. -/
def dumpItems : List J → List Char
  | [] => []
  | x :: xs => ',' :: ' ' :: dumpV x ++ dumpItems xs

/-- Remaining object fields, each preceded by `", "`. -/
def dumpFields : List (String × J) → List Char
  | [] => []
  | (k, v) :: fs => ',' :: ' ' :: escString k ++ ':' :: ' ' :: dumpV v ++ dumpFields fs
end

/-- `json.dumps(value, default=str)` as the source calls it (`default`
only fires for non-serializable objects, which never occur here). -/
def dumps (v : J) : String :=
  ⟨dumpV v⟩

/-! ## `json.loads` -/

/-- Skip JSON whitespace. -/
def skipWs : List Char → List Char
  | [] => []
  | c :: cs =>
    if c = ' ' ∨ c = '\t' ∨ c = '\n' ∨ c = '\r' then skipWs cs else c :: cs

/-- Value of one hex digit (`json.loads` accepts both cases). -/
def hexVal (c : Char) : Option Nat :=
  if '0' ≤ c ∧ c ≤ '9' then some (c.toNat - 48)
  else if 'a' ≤ c ∧ c ≤ 'f' then some (c.toNat - 87)
  else if 'A' ≤ c ∧ c ≤ 'F' then some (c.toNat - 55)
  else none

/-- Four hex digits. -/
def hex4 (a b c d : Char) : Option Nat := do
  let va ← hexVal a
  let vb ← hexVal b
  let vc ← hexVal c
  let vd ← hexVal d
  pure (va * 4096 + vb * 256 + vc * 16 + vd)

/-- Longest leading run of decimal digits, as digit values. -/
def takeDigits : List Char → (List Nat × List Char)
  | [] => ([], [])
  | c :: cs =>
    if '0' ≤ c ∧ c ≤ '9' then
      let (ds, r) := takeDigits cs
      ((c.toNat - 48) :: ds, r)
    else ([], c :: cs)

/-- Decode one escape sequence (the part after a backslash), returning
the decoded character and the remaining input.  A `\uXXXX` escape in the
surrogate range must form a surrogate pair; a lone surrogate escape is
rejected here (Lean strings cannot hold lone surrogates; `dumps` output
never contains one). -/
def decodeEsc : List Char → Option (Char × List Char)
  | [] => none
  | e :: cs =>
    if e = '"' then some ('"', cs)
    else if e = '\\' then some ('\\', cs)
    else if e = '/' then some ('/', cs)
    else if e = 'b' then some (Char.ofNat 8, cs)
    else if e = 'f' then some (Char.ofNat 12, cs)
    else if e = 'n' then some (Char.ofNat 10, cs)
    else if e = 'r' then some (Char.ofNat 13, cs)
    else if e = 't' then some (Char.ofNat 9, cs)
    else if e = 'u' then
      match cs with
      | a :: b :: c :: d :: rest =>
        match hex4 a b c d with
        | none => none
        | some n =>
          if 0xd800 ≤ n ∧ n < 0xdc00 then
            match rest with
            | e2 :: u2 :: a2 :: b2 :: c2 :: d2 :: rest2 =>
              if e2 = '\\' ∧ u2 = 'u' then
                match hex4 a2 b2 c2 d2 with
                | none => none
                | some m =>
                  if 0xdc00 ≤ m ∧ m < 0xe000 then
                    some (Char.ofNat (0x10000 + (n - 0xd800) * 0x400 + (m - 0xdc00)), rest2)
                  else none
              else none
            | _ => none
          else if 0xdc00 ≤ n ∧ n < 0xe000 then none
          else some (Char.ofNat n, rest)
      | _ => none
    else none

/-- Body of a JSON string literal up to and past the closing quote,
returning the decoded characters.  Raw control characters are rejected
(strict `json.loads`).  The fuel is a proof artifact: any fuel larger
than the input length behaves like unbounded recursion, and every call
below supplies that much. -/
def parseStrBody : Nat → List Char → Option (List Char × List Char)
  | 0, _ => none
  | _ + 1, [] => none
  | fuel + 1, c :: cs =>
    if c = '"' then some ([], cs)
    else if c = '\\' then
      match decodeEsc cs with
      | none => none
      | some (ch, rest) => (parseStrBody fuel rest).map (fun p => (ch :: p.1, p.2))
    else if c.toNat < 0x20 then none
    else (parseStrBody fuel cs).map (fun p => (c :: p.1, p.2))

/-- Literal tails of `null`, `true`, `false`. -/
def parseNull : List Char → Option (J × List Char)
  | 'u' :: 'l' :: 'l' :: r => some (J.null, r)
  | _ => none

def parseTrue : List Char → Option (J × List Char)
  | 'r' :: 'u' :: 'e' :: r => some (J.b true, r)
  | _ => none

def parseFalse : List Char → Option (J × List Char)
  | 'a' :: 'l' :: 's' :: 'e' :: r => some (J.b false, r)
  | _ => none

/-- A number continuing after a leading minus sign. -/
def parseNeg (cs : List Char) : Option (J × List Char) :=
  match takeDigits cs with
  | ([], _) => none
  | (ds, r) => some (J.i (-(Nat.ofDigits 10 ds.reverse : Nat)), r)

/-- A number starting at the current character. -/
def parseNum (c : Char) (cs : List Char) : Option (J × List Char) :=
  match takeDigits (c :: cs) with
  | ([], _) => none
  | (ds, r) => some (J.i (Nat.ofDigits 10 ds.reverse : Nat), r)

mutual
/-- One JSON value, fuelled (the fuel bounds parse nesting; `loads`
supplies more than enough). -/
def parseV : Nat → List Char → Option (J × List Char)
  | 0, _ => none
  | fuel + 1, input =>
    match skipWs input with
    | [] => none
    | c :: cs => parseTok fuel c cs
termination_by fuel _ => 8 * fuel + 3

/-- Dispatch on the first significant character of a value. -/
def parseTok (fuel : Nat) (c : Char) (cs : List Char) : Option (J × List Char) :=
  if c = 'n' then parseNull cs
  else if c = 't' then parseTrue cs
  else if c = 'f' then parseFalse cs
  else if c = '"' then
    (parseStrBody (cs.length + 1) cs).map (fun p => (J.s ⟨p.1⟩, p.2))
  else if c = '[' then
    if (skipWs cs).head? = some ']' then some (J.arr [], (skipWs cs).tail)
    else (parseArr fuel (skipWs cs)).map (fun p => (J.arr p.1, p.2))
  else if c = '{' then
    if (skipWs cs).head? = some '}' then some (J.obj [], (skipWs cs).tail)
    else (parseObjFields fuel (skipWs cs)).map (fun p => (J.obj p.1, p.2))
  else if c = '-' then parseNeg cs
  else parseNum c cs
termination_by 8 * fuel + 2

/-- One or more comma-separated array items followed by `]`. -/
def parseArr : Nat → List Char → Option (List J × List Char)
  | 0, _ => none
  | fuel + 1, cs => (parseV fuel cs).bind (fun p => parseArrSep fuel p.1 p.2)
termination_by fuel _ => 8 * fuel

/-- After one array item: a comma and more items, or the closing
bracket. -/
def parseArrSep (fuel : Nat) (v : J) (r : List Char) : Option (List J × List Char) :=
  match skipWs r with
  | ',' :: r2 => (parseArr fuel r2).map (fun p => (v :: p.1, p.2))
  | ']' :: r2 => some ([v], r2)
  | _ => none
termination_by 8 * fuel + 1

/-- One or more comma-separated object fields followed by `}`. -/
def parseObjFields : Nat → List Char → Option (List (String × J) × List Char)
  | 0, _ => none
  | fuel + 1, cs => parseFieldStart fuel (skipWs cs)
termination_by fuel _ => 8 * fuel

/-- One field: a quoted key... -/
def parseFieldStart : Nat → List Char → Option (List (String × J) × List Char)
  | fuel, '"' :: r =>
    match parseStrBody (r.length + 1) r with
    | none => none
    | some (k, r1) => parseFieldColon fuel ⟨k⟩ r1
  | _, _ => none
termination_by fuel _ => 8 * fuel + 5

/-- ... then a colon and the field value ... -/
def parseFieldColon (fuel : Nat) (k : String) (r1 : List Char) :
    Option (List (String × J) × List Char) :=
  match skipWs r1 with
  | ':' :: r2 =>
    match parseV fuel r2 with
    | none => none
    | some (v, r3) => parseFieldEnd fuel k v r3
  | _ => none
termination_by 8 * fuel + 4

/-- ... then a comma and more fields, or the closing brace. -/
def parseFieldEnd (fuel : Nat) (k : String) (v : J) (r3 : List Char) :
    Option (List (String × J) × List Char) :=
  match skipWs r3 with
  | ',' :: r4 => (parseObjFields fuel r4).map (fun p => ((k, v) :: p.1, p.2))
  | '}' :: r4 => some ([(k, v)], r4)
  | _ => none
termination_by 8 * fuel + 1
end

/-- `json.loads`: parse one value, allow trailing whitespace only. -/
def loads (str : String) : Option J :=
  match parseV (str.data.length + 1) str.data with
  | some (v, rest) => if skipWs rest = [] then some v else none
  | none => none

/-! ## Round-trip helpers -/

theorem char_not_surrogate (c : Char) :
    c.toNat < 0xd800 ∨ (0xdfff < c.toNat ∧ c.toNat < 0x110000) := c.valid

theorem skipWs_cons_notWs {c : Char} (cs : List Char)
    (h : ¬(c = ' ' ∨ c = '\t' ∨ c = '\n' ∨ c = '\r')) :
    skipWs (c :: cs) = c :: cs := by
  simp [skipWs, h]

theorem digitChar_digit {d : Nat} (h : d < 10) :
    '0' ≤ Nat.digitChar d ∧ Nat.digitChar d ≤ '9' := by
  interval_cases d <;> decide

theorem digitChar_sub48 {d : Nat} (h : d < 10) :
    (Nat.digitChar d).toNat - 48 = d := by
  interval_cases d <;> decide

theorem hexVal_digitChar {d : Nat} (h : d < 16) :
    hexVal (Nat.digitChar d) = some d := by
  interval_cases d <;> decide

theorem hex4_digitChar {n : Nat} (h : n < 0x10000) :
    hex4 (Nat.digitChar (n / 4096 % 16)) (Nat.digitChar (n / 256 % 16))
      (Nat.digitChar (n / 16 % 16)) (Nat.digitChar (n % 16)) = some n := by
  rw [hex4, hexVal_digitChar (Nat.mod_lt _ (by norm_num)),
    hexVal_digitChar (Nat.mod_lt _ (by norm_num)),
    hexVal_digitChar (Nat.mod_lt _ (by norm_num)),
    hexVal_digitChar (Nat.mod_lt _ (by norm_num))]
  show some _ = some n
  congr 1
  omega

theorem decodeEsc_u_bmp {n : Nat} (rest : List Char) (hlo : ¬(0xd800 ≤ n ∧ n < 0xdc00))
    (hhi : ¬(0xdc00 ≤ n ∧ n < 0xe000)) (hb : n < 0x10000) :
    decodeEsc ('u' :: Nat.digitChar (n / 4096 % 16) :: Nat.digitChar (n / 256 % 16) ::
      Nat.digitChar (n / 16 % 16) :: Nat.digitChar (n % 16) :: rest) =
      some (Char.ofNat n, rest) := by
  rw [decodeEsc]
  rw [if_neg (by decide : ¬('u' : Char) = '"'), if_neg (by decide : ¬('u' : Char) = '\\'),
    if_neg (by decide : ¬('u' : Char) = '/'), if_neg (by decide : ¬('u' : Char) = 'b'),
    if_neg (by decide : ¬('u' : Char) = 'f'), if_neg (by decide : ¬('u' : Char) = 'n'),
    if_neg (by decide : ¬('u' : Char) = 'r'), if_neg (by decide : ¬('u' : Char) = 't'),
    if_pos rfl]
  simp only [hex4_digitChar hb]
  rw [if_neg hlo, if_neg hhi]

theorem decodeEsc_u_pair {hi lo : Nat} (rest : List Char)
    (hh : 0xd800 ≤ hi ∧ hi < 0xdc00) (hl : 0xdc00 ≤ lo ∧ lo < 0xe000)
    (hhb : hi < 0x10000) (hlb : lo < 0x10000) :
    decodeEsc ('u' :: Nat.digitChar (hi / 4096 % 16) :: Nat.digitChar (hi / 256 % 16) ::
      Nat.digitChar (hi / 16 % 16) :: Nat.digitChar (hi % 16) ::
      '\\' :: 'u' :: Nat.digitChar (lo / 4096 % 16) :: Nat.digitChar (lo / 256 % 16) ::
      Nat.digitChar (lo / 16 % 16) :: Nat.digitChar (lo % 16) :: rest) =
      some (Char.ofNat (0x10000 + (hi - 0xd800) * 0x400 + (lo - 0xdc00)), rest) := by
  rw [decodeEsc]
  rw [if_neg (by decide : ¬('u' : Char) = '"'), if_neg (by decide : ¬('u' : Char) = '\\'),
    if_neg (by decide : ¬('u' : Char) = '/'), if_neg (by decide : ¬('u' : Char) = 'b'),
    if_neg (by decide : ¬('u' : Char) = 'f'), if_neg (by decide : ¬('u' : Char) = 'n'),
    if_neg (by decide : ¬('u' : Char) = 'r'), if_neg (by decide : ¬('u' : Char) = 't'),
    if_pos rfl]
  simp only [hex4_digitChar hhb]
  rw [if_pos hh]
  simp only [and_self, ite_true, hex4_digitChar hlb]
  rw [if_pos hl]

theorem escBody_cons (c : Char) (cs : List Char) :
    escBody (c :: cs) = escChar c ++ escBody cs := rfl

/-! Shape of `escChar` in each of its branches. -/

theorem escChar_sq (c : Char) (h : c = '"') : escChar c = ['\\', '"'] := by
  subst h; rfl

theorem escChar_sb (c : Char) (h : c = '\\') : escChar c = ['\\', '\\'] := by
  subst h; rfl

theorem escChar_c8 (c : Char) (h : c.toNat = 8) : escChar c = ['\\', 'b'] := by
  unfold escChar
  rw [if_neg (c := c = '"') (by rintro rfl; simp at h), if_neg (by rintro rfl; simp at h),
    if_pos h]

theorem escChar_c9 (c : Char) (h : c.toNat = 9) : escChar c = ['\\', 't'] := by
  unfold escChar
  rw [if_neg (c := c = '"') (by rintro rfl; simp at h), if_neg (by rintro rfl; simp at h),
    if_neg (by omega), if_pos h]

theorem escChar_c10 (c : Char) (h : c.toNat = 10) : escChar c = ['\\', 'n'] := by
  unfold escChar
  rw [if_neg (c := c = '"') (by rintro rfl; simp at h), if_neg (by rintro rfl; simp at h),
    if_neg (by omega), if_neg (by omega), if_pos h]

theorem escChar_c12 (c : Char) (h : c.toNat = 12) : escChar c = ['\\', 'f'] := by
  unfold escChar
  rw [if_neg (c := c = '"') (by rintro rfl; simp at h), if_neg (by rintro rfl; simp at h),
    if_neg (by omega), if_neg (by omega), if_neg (by omega), if_pos h]

theorem escChar_c13 (c : Char) (h : c.toNat = 13) : escChar c = ['\\', 'r'] := by
  unfold escChar
  rw [if_neg (c := c = '"') (by rintro rfl; simp at h), if_neg (by rintro rfl; simp at h),
    if_neg (by omega), if_neg (by omega), if_neg (by omega), if_neg (by omega), if_pos h]

theorem escChar_plain (c : Char) (h1 : ¬c = '"') (h2 : ¬c = '\\')
    (h8 : 0x20 ≤ c.toNat ∧ c.toNat ≤ 0x7e) : escChar c = [c] := by
  unfold escChar
  rw [if_neg h1, if_neg h2, if_neg (by omega), if_neg (by omega), if_neg (by omega),
    if_neg (by omega), if_neg (by omega), if_pos h8]

theorem escChar_bmp (c : Char) (h1 : ¬c = '"') (h2 : ¬c = '\\')
    (h8 : ¬(0x20 ≤ c.toNat ∧ c.toNat ≤ 0x7e)) (hshort : c.toNat ≠ 8 ∧ c.toNat ≠ 9 ∧
      c.toNat ≠ 10 ∧ c.toNat ≠ 12 ∧ c.toNat ≠ 13) (h9 : c.toNat < 0x10000) :
    escChar c = '\\' :: 'u' :: Nat.digitChar (c.toNat / 4096 % 16) ::
      Nat.digitChar (c.toNat / 256 % 16) :: Nat.digitChar (c.toNat / 16 % 16) ::
      Nat.digitChar (c.toNat % 16) :: [] := by
  unfold escChar
  rw [if_neg h1, if_neg h2, if_neg (by omega), if_neg (by omega), if_neg (by omega),
    if_neg (by omega), if_neg (by omega), if_neg h8, if_pos h9]

theorem escChar_astral (c : Char) (h9 : ¬c.toNat < 0x10000) :
    escChar c = '\\' :: 'u' ::
      Nat.digitChar ((0xd800 + (c.toNat - 0x10000) / 0x400) / 4096 % 16) ::
      Nat.digitChar ((0xd800 + (c.toNat - 0x10000) / 0x400) / 256 % 16) ::
      Nat.digitChar ((0xd800 + (c.toNat - 0x10000) / 0x400) / 16 % 16) ::
      Nat.digitChar ((0xd800 + (c.toNat - 0x10000) / 0x400) % 16) ::
      '\\' :: 'u' ::
      Nat.digitChar ((0xdc00 + (c.toNat - 0x10000) % 0x400) / 4096 % 16) ::
      Nat.digitChar ((0xdc00 + (c.toNat - 0x10000) % 0x400) / 256 % 16) ::
      Nat.digitChar ((0xdc00 + (c.toNat - 0x10000) % 0x400) / 16 % 16) ::
      Nat.digitChar ((0xdc00 + (c.toNat - 0x10000) % 0x400) % 16) :: [] := by
  unfold escChar
  rw [if_neg (c := c = '"') (by rintro rfl; simp at h9), if_neg (by rintro rfl; simp at h9),
    if_neg (by omega), if_neg (by omega), if_neg (by omega), if_neg (by omega),
    if_neg (by omega), if_neg (by omega), if_neg h9]

/-- Parsing undoes one escaped character: each `escChar` consumes exactly
one unit of fuel. -/
theorem parseStrBody_escChar (c : Char) (tail : List Char) (f : Nat) :
    parseStrBody (f + 1) (escChar c ++ tail) =
      (parseStrBody f tail).map (fun p => (c :: p.1, p.2)) := by
  by_cases h1 : c = '"'
  · rw [escChar_sq c h1]
    rw [show ((['\\', '"'] : List Char) ++ tail) = '\\' :: '"' :: tail from rfl]
    rw [parseStrBody, if_neg (by decide : ¬('\\' : Char) = '"'), if_pos rfl]
    simp only [show decodeEsc ('"' :: tail) = some ('"', tail) from rfl, h1]
  by_cases h2 : c = '\\'
  · rw [escChar_sb c h2]
    rw [show ((['\\', '\\'] : List Char) ++ tail) = '\\' :: '\\' :: tail from rfl]
    rw [parseStrBody, if_neg (by decide : ¬('\\' : Char) = '"'), if_pos rfl]
    simp only [show decodeEsc ('\\' :: tail) = some ('\\', tail) from rfl, h2]
  by_cases h3 : c.toNat = 8
  · rw [escChar_c8 c h3]
    rw [show ((['\\', 'b'] : List Char) ++ tail) = '\\' :: 'b' :: tail from rfl]
    rw [parseStrBody, if_neg (by decide : ¬('\\' : Char) = '"'), if_pos rfl]
    simp only [show decodeEsc ('b' :: tail) = some (Char.ofNat 8, tail) from rfl]
    rw [show Char.ofNat 8 = c by rw [← h3, Char.ofNat_toNat]]
  by_cases h4 : c.toNat = 9
  · rw [escChar_c9 c h4]
    rw [show ((['\\', 't'] : List Char) ++ tail) = '\\' :: 't' :: tail from rfl]
    rw [parseStrBody, if_neg (by decide : ¬('\\' : Char) = '"'), if_pos rfl]
    simp only [show decodeEsc ('t' :: tail) = some (Char.ofNat 9, tail) from rfl]
    rw [show Char.ofNat 9 = c by rw [← h4, Char.ofNat_toNat]]
  by_cases h5 : c.toNat = 10
  · rw [escChar_c10 c h5]
    rw [show ((['\\', 'n'] : List Char) ++ tail) = '\\' :: 'n' :: tail from rfl]
    rw [parseStrBody, if_neg (by decide : ¬('\\' : Char) = '"'), if_pos rfl]
    simp only [show decodeEsc ('n' :: tail) = some (Char.ofNat 10, tail) from rfl]
    rw [show Char.ofNat 10 = c by rw [← h5, Char.ofNat_toNat]]
  by_cases h6 : c.toNat = 12
  · rw [escChar_c12 c h6]
    rw [show ((['\\', 'f'] : List Char) ++ tail) = '\\' :: 'f' :: tail from rfl]
    rw [parseStrBody, if_neg (by decide : ¬('\\' : Char) = '"'), if_pos rfl]
    simp only [show decodeEsc ('f' :: tail) = some (Char.ofNat 12, tail) from rfl]
    rw [show Char.ofNat 12 = c by rw [← h6, Char.ofNat_toNat]]
  by_cases h7 : c.toNat = 13
  · rw [escChar_c13 c h7]
    rw [show ((['\\', 'r'] : List Char) ++ tail) = '\\' :: 'r' :: tail from rfl]
    rw [parseStrBody, if_neg (by decide : ¬('\\' : Char) = '"'), if_pos rfl]
    simp only [show decodeEsc ('r' :: tail) = some (Char.ofNat 13, tail) from rfl]
    rw [show Char.ofNat 13 = c by rw [← h7, Char.ofNat_toNat]]
  by_cases h8 : 0x20 ≤ c.toNat ∧ c.toNat ≤ 0x7e
  · rw [escChar_plain c h1 h2 h8]
    rw [show (([c] : List Char) ++ tail) = c :: tail from rfl]
    rw [parseStrBody, if_neg h1, if_neg h2, if_neg (by omega)]
  by_cases h9 : c.toNat < 0x10000
  · rw [escChar_bmp c h1 h2 h8 ⟨h3, h4, h5, h6, h7⟩ h9]
    rw [show (('\\' :: 'u' :: Nat.digitChar (c.toNat / 4096 % 16) ::
        Nat.digitChar (c.toNat / 256 % 16) :: Nat.digitChar (c.toNat / 16 % 16) ::
        Nat.digitChar (c.toNat % 16) :: []) ++ tail) =
      '\\' :: 'u' :: Nat.digitChar (c.toNat / 4096 % 16) ::
        Nat.digitChar (c.toNat / 256 % 16) :: Nat.digitChar (c.toNat / 16 % 16) ::
        Nat.digitChar (c.toNat % 16) :: tail from rfl]
    rw [parseStrBody, if_neg (by decide : ¬('\\' : Char) = '"'), if_pos rfl]
    have hns := char_not_surrogate c
    rw [decodeEsc_u_bmp tail (by omega) (by omega) h9, Char.ofNat_toNat]
  · have hns := char_not_surrogate c
    rw [escChar_astral c h9]
    rw [show (('\\' :: 'u' ::
        Nat.digitChar ((0xd800 + (c.toNat - 0x10000) / 0x400) / 4096 % 16) ::
        Nat.digitChar ((0xd800 + (c.toNat - 0x10000) / 0x400) / 256 % 16) ::
        Nat.digitChar ((0xd800 + (c.toNat - 0x10000) / 0x400) / 16 % 16) ::
        Nat.digitChar ((0xd800 + (c.toNat - 0x10000) / 0x400) % 16) ::
        '\\' :: 'u' ::
        Nat.digitChar ((0xdc00 + (c.toNat - 0x10000) % 0x400) / 4096 % 16) ::
        Nat.digitChar ((0xdc00 + (c.toNat - 0x10000) % 0x400) / 256 % 16) ::
        Nat.digitChar ((0xdc00 + (c.toNat - 0x10000) % 0x400) / 16 % 16) ::
        Nat.digitChar ((0xdc00 + (c.toNat - 0x10000) % 0x400) % 16) :: []) ++ tail) =
      '\\' :: 'u' ::
        Nat.digitChar ((0xd800 + (c.toNat - 0x10000) / 0x400) / 4096 % 16) ::
        Nat.digitChar ((0xd800 + (c.toNat - 0x10000) / 0x400) / 256 % 16) ::
        Nat.digitChar ((0xd800 + (c.toNat - 0x10000) / 0x400) / 16 % 16) ::
        Nat.digitChar ((0xd800 + (c.toNat - 0x10000) / 0x400) % 16) ::
        '\\' :: 'u' ::
        Nat.digitChar ((0xdc00 + (c.toNat - 0x10000) % 0x400) / 4096 % 16) ::
        Nat.digitChar ((0xdc00 + (c.toNat - 0x10000) % 0x400) / 256 % 16) ::
        Nat.digitChar ((0xdc00 + (c.toNat - 0x10000) % 0x400) / 16 % 16) ::
        Nat.digitChar ((0xdc00 + (c.toNat - 0x10000) % 0x400) % 16) :: tail from rfl]
    rw [parseStrBody, if_neg (by decide : ¬('\\' : Char) = '"'), if_pos rfl]
    rw [decodeEsc_u_pair tail (by omega) (by omega) (by omega) (by omega)]
    rw [show (0x10000 + ((0xd800 + (c.toNat - 0x10000) / 0x400) - 0xd800) * 0x400 +
        ((0xdc00 + (c.toNat - 0x10000) % 0x400) - 0xdc00)) = c.toNat by omega]
    rw [Char.ofNat_toNat]

/-- Parsing a printed string body recovers the characters exactly. -/
theorem parseStrBody_escBody :
    ∀ (cs rest : List Char) (fuel : Nat), cs.length < fuel →
      parseStrBody fuel (escBody cs ++ '"' :: rest) = some (cs, rest) := by
  intro cs
  induction cs with
  | nil =>
    intro rest fuel hf
    match fuel, hf with
    | f + 1, _ =>
      show parseStrBody (f + 1) ('"' :: rest) = some ([], rest)
      rw [parseStrBody, if_pos rfl]
  | cons c cs ih =>
    intro rest fuel hf
    match fuel, hf with
    | f + 1, hf =>
      have hf' : cs.length < f := by simpa using hf
      rw [escBody_cons, List.append_assoc, parseStrBody_escChar, ih rest f hf']
      rfl

/-! ## Number round-trip -/

/-- The digit values `natChars` prints, most significant first. -/
def digitsOf (n : Nat) : List Nat :=
  if n = 0 then [0] else (Nat.digits 10 n).reverse

theorem digitsOf_ne_nil (n : Nat) : digitsOf n ≠ [] := by
  unfold digitsOf
  split
  · simp
  · simpa using Nat.digits_ne_nil_iff_ne_zero.mpr (by assumption)

theorem digitsOf_lt (n : Nat) : ∀ d ∈ digitsOf n, d < 10 := by
  unfold digitsOf
  split
  · simp
  · intro d hd
    exact Nat.digits_lt_base (by norm_num) (List.mem_reverse.mp hd)

theorem ofDigits_digitsOf (n : Nat) :
    (Nat.ofDigits 10 (digitsOf n).reverse : Nat) = n := by
  unfold digitsOf
  split
  · simp [Nat.ofDigits, *]
  · rw [List.reverse_reverse]
    exact_mod_cast congrArg Nat.cast (Nat.ofDigits_digits 10 n)

theorem natChars_eq (n : Nat) : natChars n = (digitsOf n).map Nat.digitChar := by
  unfold natChars digitsOf
  split <;> rfl

/-- `rest` does not begin with a decimal digit (so a greedy digit scan
stops exactly at the printed number's end). -/
def noDigitHead : List Char → Prop
  | [] => True
  | c :: _ => ¬('0' ≤ c ∧ c ≤ '9')

theorem takeDigits_stop {rest : List Char} (h : noDigitHead rest) :
    takeDigits rest = ([], rest) := by
  cases rest with
  | nil => rfl
  | cons c cs =>
    rw [takeDigits, if_neg h]

theorem takeDigits_map {ds : List Nat} (hds : ∀ d ∈ ds, d < 10) {rest : List Char}
    (h : noDigitHead rest) :
    takeDigits (ds.map Nat.digitChar ++ rest) = (ds, rest) := by
  induction ds with
  | nil => simpa using takeDigits_stop h
  | cons d ds ih =>
    have hd : d < 10 := hds d (by simp)
    rw [List.map_cons, List.cons_append, takeDigits, if_pos (digitChar_digit hd)]
    rw [ih (fun x hx => hds x (by simp [hx]))]
    simp [digitChar_sub48 hd]

/-! ## Value round-trip -/

/-- Every printed value starts with a distinctive non-whitespace
character. -/
theorem dump_head (v : J) : ∃ c cs, dumpV v = c :: cs ∧
    (c = 'n' ∨ c = 't' ∨ c = 'f' ∨ c = '"' ∨ c = '[' ∨ c = '{' ∨ c = '-' ∨
      ('0' ≤ c ∧ c ≤ '9')) := by
  cases v with
  | null => exact ⟨'n', _, rfl, by tauto⟩
  | b x =>
    cases x with
    | false => exact ⟨'f', _, rfl, by tauto⟩
    | true => exact ⟨'t', _, rfl, by tauto⟩
  | s str => exact ⟨'"', _, rfl, by tauto⟩
  | arr l =>
    cases l with
    | nil => exact ⟨'[', _, rfl, by tauto⟩
    | cons x xs => exact ⟨'[', _, rfl, by tauto⟩
  | obj l =>
    match l with
    | [] => exact ⟨'{', _, rfl, by tauto⟩
    | (k, v) :: fs => exact ⟨'{', _, rfl, by tauto⟩
  | i m =>
    show ∃ c cs, intChars m = c :: cs ∧ _
    unfold intChars
    split
    · exact ⟨'-', _, rfl, by tauto⟩
    · rw [natChars_eq]
      obtain ⟨d, ds, hds⟩ := List.exists_cons_of_ne_nil (digitsOf_ne_nil m.toNat)
      refine ⟨Nat.digitChar d, _, by rw [hds]; rfl, ?_⟩
      have : d < 10 := digitsOf_lt m.toNat d (by rw [hds]; simp)
      exact Or.inr (Or.inr (Or.inr (Or.inr (Or.inr (Or.inr (Or.inr
        (digitChar_digit this)))))))

theorem dump_head_notWs (v : J) (rest : List Char) :
    skipWs (dumpV v ++ rest) = dumpV v ++ rest := by
  obtain ⟨c, cs, hv, hc⟩ := dump_head v
  rw [hv, List.cons_append]
  apply skipWs_cons_notWs
  rcases hc with rfl | rfl | rfl | rfl | rfl | rfl | rfl | hd
  all_goals try decide
  rintro (rfl | rfl | rfl | rfl) <;> revert hd <;> decide

theorem skipWs_space (cs : List Char) : skipWs (' ' :: cs) = skipWs cs := by
  rw [skipWs, if_pos (by tauto)]

theorem parseV_space (f : Nat) (cs : List Char) :
    parseV f (' ' :: cs) = parseV f cs := by
  cases f with
  | zero => rw [parseV, parseV]
  | succ f =>
    conv_lhs => rw [parseV]
    conv_rhs => rw [parseV]
    rw [skipWs_space]

theorem parseArr_space (f : Nat) (cs : List Char) :
    parseArr f (' ' :: cs) = parseArr f cs := by
  cases f with
  | zero => rw [parseArr, parseArr]
  | succ f =>
    conv_lhs => rw [parseArr]
    conv_rhs => rw [parseArr]
    rw [parseV_space]

theorem parseObjFields_space (f : Nat) (cs : List Char) :
    parseObjFields f (' ' :: cs) = parseObjFields f cs := by
  cases f with
  | zero => rw [parseObjFields, parseObjFields]
  | succ f =>
    conv_lhs => rw [parseObjFields]
    conv_rhs => rw [parseObjFields]
    rw [skipWs_space]

/-- `parseV` on an input whose significant head is known. -/
theorem parseV_eq {input : List Char} (f : Nat) (c : Char) (cs : List Char)
    (h : skipWs input = c :: cs) :
    parseV (f + 1) input = parseTok f c cs := by
  rw [parseV, h]

theorem escChar_length (c : Char) : 1 ≤ (escChar c).length := by
  unfold escChar
  split_ifs <;> simp

theorem escBody_length (l : List Char) : l.length ≤ (escBody l).length := by
  induction l with
  | nil => simp [escBody]
  | cons c cs ih =>
    rw [escBody_cons]
    have := escChar_length c
    simp only [List.length_append, List.length_cons]
    omega

mutual
/-- Fuel needed by `parseV` to parse a printed value. -/
def needV : J → Nat
  | .arr xs => 1 + needItems xs
  | .obj fs => 1 + needFields fs
  | _ => 1

def needItems : List J → Nat
  | [] => 0
  | x :: xs => 1 + max (needV x) (needItems xs)

def needFields : List (String × J) → Nat
  | [] => 0
  | f :: fs => 1 + max (needV f.2) (needFields fs)
end

/-- After a printed number, the remaining input must not begin with a
digit (inside printed arrays/objects it begins with a separator). -/
def numOk : J → List Char → Prop
  | .i _, c :: _ => ¬('0' ≤ c ∧ c ≤ '9')
  | _, _ => True

theorem numOk_items (v : J) (xs : List J) (rest : List Char) :
    numOk v (dumpItems xs ++ ']' :: rest) := by
  cases v <;> try trivial
  cases xs with
  | nil => exact (by decide : ¬('0' ≤ ']' ∧ ']' ≤ '9'))
  | cons y ys => exact (by decide : ¬('0' ≤ ',' ∧ ',' ≤ '9'))

theorem numOk_fields (v : J) (fs : List (String × J)) (rest : List Char) :
    numOk v (dumpFields fs ++ '}' :: rest) := by
  cases v <;> try trivial
  cases fs with
  | nil => exact (by decide : ¬('0' ≤ '}' ∧ '}' ≤ '9'))
  | cons g gs =>
    obtain ⟨k2, v2⟩ := g
    exact (by decide : ¬('0' ≤ ',' ∧ ',' ≤ '9'))

theorem digit_ne_keys {c : Char} (hd : '0' ≤ c ∧ c ≤ '9') :
    c ≠ 'n' ∧ c ≠ 't' ∧ c ≠ 'f' ∧ c ≠ '"' ∧ c ≠ '[' ∧ c ≠ '{' ∧ c ≠ '-' := by
  refine ⟨?_, ?_, ?_, ?_, ?_, ?_, ?_⟩ <;> (rintro rfl; revert hd; decide)

theorem head_ne_bracket (v : J) :
    ∀ {c : Char} {cs : List Char}, dumpV v = c :: cs → c ≠ ']' ∧ c ≠ '}' := by
  intro c cs hv
  obtain ⟨c', cs', hv', hc⟩ := dump_head v
  rw [hv] at hv'
  obtain ⟨rfl, rfl⟩ : c = c' ∧ cs = cs' := by
    constructor <;> [exact (List.cons.injEq .. ▸ hv').1; exact (List.cons.injEq .. ▸ hv').2]
  rcases hc with rfl | rfl | rfl | rfl | rfl | rfl | rfl | hd
  all_goals try (exact ⟨by decide, by decide⟩)
  exact ⟨by rintro rfl; revert hd; decide, by rintro rfl; revert hd; decide⟩

set_option maxHeartbeats 1000000 in
/-- Main round-trip induction: a printed value parses back to itself,
and likewise for nonempty printed item and field lists. -/
theorem parse_dump_all : ∀ fuel : Nat,
    (∀ v rest, needV v ≤ fuel → numOk v rest →
      parseV fuel (dumpV v ++ rest) = some (v, rest)) ∧
    (∀ x xs rest, needItems (x :: xs) ≤ fuel →
      parseArr fuel (dumpV x ++ (dumpItems xs ++ ']' :: rest)) = some (x :: xs, rest)) ∧
    (∀ (k : String) (v : J) fs rest, needFields ((k, v) :: fs) ≤ fuel →
      parseObjFields fuel
        (escString k ++ ':' :: ' ' :: (dumpV v ++ (dumpFields fs ++ '}' :: rest))) =
        some ((k, v) :: fs, rest)) := by
  intro fuel
  induction fuel with
  | zero =>
    refine ⟨?_, ?_, ?_⟩
    · intro v rest hn
      exfalso
      cases v <;> simp [needV] at hn
    · intro x xs rest hn
      exfalso
      simp [needItems] at hn
    · intro k v fs rest hn
      exfalso
      simp [needFields] at hn
  | succ fuel ih =>
    obtain ⟨ihV, ihA, ihO⟩ := ih
    refine ⟨?_, ?_, ?_⟩
    · -- values
      intro v rest hn hok
      cases v with
      | null =>
        rw [parseV_eq fuel 'n' ('u' :: 'l' :: 'l' :: rest) (by rw [dump_head_notWs]; rfl)]
        rw [parseTok, if_pos rfl]
        rfl
      | b x =>
        cases x with
        | true =>
          rw [parseV_eq fuel 't' ('r' :: 'u' :: 'e' :: rest)
            (by rw [dump_head_notWs]; rfl)]
          rw [parseTok, if_neg (by decide : ¬('t' : Char) = 'n'), if_pos rfl]
          rfl
        | false =>
          rw [parseV_eq fuel 'f' ('a' :: 'l' :: 's' :: 'e' :: rest)
            (by rw [dump_head_notWs]; rfl)]
          rw [parseTok, if_neg (by decide : ¬('f' : Char) = 'n'),
            if_neg (by decide : ¬('f' : Char) = 't'), if_pos rfl]
          rfl
      | s str =>
        have hsk : skipWs (dumpV (J.s str) ++ rest) =
            '"' :: (escBody str.data ++ '"' :: rest) := by
          rw [dump_head_notWs]
          show '"' :: ((escBody str.data ++ ['"']) ++ rest) = _
          simp [List.append_assoc]
        rw [parseV_eq fuel _ _ hsk]
        rw [parseTok, if_neg (by decide : ¬('"' : Char) = 'n'),
          if_neg (by decide : ¬('"' : Char) = 't'),
          if_neg (by decide : ¬('"' : Char) = 'f'), if_pos rfl]
        rw [parseStrBody_escBody str.data rest _
          (by have := escBody_length str.data
              simp only [List.length_append, List.length_cons]
              omega)]
        rfl
      | arr l =>
        cases l with
        | nil =>
          rw [parseV_eq fuel '[' (']' :: rest) (by rw [dump_head_notWs]; rfl)]
          rw [parseTok, if_neg (by decide : ¬('[' : Char) = 'n'),
            if_neg (by decide : ¬('[' : Char) = 't'),
            if_neg (by decide : ¬('[' : Char) = 'f'),
            if_neg (by decide : ¬('[' : Char) = '"'), if_pos rfl]
          rw [skipWs_cons_notWs _ (by decide)]
          rw [if_pos (by rfl : (']' :: rest).head? = some ']')]
          rfl
        | cons x xs =>
          have hsk : skipWs (dumpV (J.arr (x :: xs)) ++ rest) =
              '[' :: (dumpV x ++ (dumpItems xs ++ ']' :: rest)) := by
            rw [dump_head_notWs]
            show '[' :: ((dumpV x ++ dumpItems xs ++ [']']) ++ rest) = _
            simp [List.append_assoc]
          rw [parseV_eq fuel _ _ hsk]
          rw [parseTok, if_neg (by decide : ¬('[' : Char) = 'n'),
            if_neg (by decide : ¬('[' : Char) = 't'),
            if_neg (by decide : ¬('[' : Char) = 'f'),
            if_neg (by decide : ¬('[' : Char) = '"'), if_pos rfl]
          rw [dump_head_notWs x (dumpItems xs ++ ']' :: rest)]
          obtain ⟨c1, cs1, hv1, _⟩ := dump_head x
          have hne := (head_ne_bracket x hv1).1
          rw [if_neg (by rw [hv1]; simpa using hne)]
          rw [ihA x xs rest (by simp [needV] at hn; omega)]
          rfl
      | obj l =>
        match l with
        | [] =>
          rw [parseV_eq fuel '{' ('}' :: rest) (by rw [dump_head_notWs]; rfl)]
          rw [parseTok, if_neg (by decide : ¬('{' : Char) = 'n'),
            if_neg (by decide : ¬('{' : Char) = 't'),
            if_neg (by decide : ¬('{' : Char) = 'f'),
            if_neg (by decide : ¬('{' : Char) = '"'),
            if_neg (by decide : ¬('{' : Char) = '['), if_pos rfl]
          rw [skipWs_cons_notWs _ (by decide)]
          rw [if_pos (by rfl : ('}' :: rest).head? = some '}')]
          rfl
        | (k, v) :: fs =>
          have hsk : skipWs (dumpV (J.obj ((k, v) :: fs)) ++ rest) =
              '{' :: (escString k ++ ':' :: ' ' ::
                (dumpV v ++ (dumpFields fs ++ '}' :: rest))) := by
            rw [dump_head_notWs]
            show '{' :: ((escString k ++ ':' :: ' ' :: dumpV v ++ dumpFields fs ++ ['}'])
              ++ rest) = _
            simp [List.append_assoc]
          rw [parseV_eq fuel _ _ hsk]
          rw [parseTok, if_neg (by decide : ¬('{' : Char) = 'n'),
            if_neg (by decide : ¬('{' : Char) = 't'),
            if_neg (by decide : ¬('{' : Char) = 'f'),
            if_neg (by decide : ¬('{' : Char) = '"'),
            if_neg (by decide : ¬('{' : Char) = '['), if_pos rfl]
          have hesc : escString k ++ ':' :: ' ' ::
              (dumpV v ++ (dumpFields fs ++ '}' :: rest)) =
              '"' :: (escBody k.data ++ '"' :: (':' :: ' ' ::
                (dumpV v ++ (dumpFields fs ++ '}' :: rest)))) := by
            show '"' :: ((escBody k.data ++ ['"']) ++ _) = _
            simp [List.append_assoc]
          rw [hesc, skipWs_cons_notWs _ (by decide)]
          rw [if_neg (by simp)]
          rw [← hesc, ihO k v fs rest (by simp [needV] at hn; omega)]
          rfl
      | i m =>
        rw [show dumpV (J.i m) = intChars m from rfl]
        by_cases hm : m < 0
        · have hsk : skipWs (intChars m ++ rest) =
              '-' :: ((digitsOf (-m).toNat).map Nat.digitChar ++ rest) := by
            rw [show skipWs (intChars m ++ rest) = intChars m ++ rest from
              dump_head_notWs (J.i m) rest]
            rw [intChars, if_pos hm, natChars_eq]
            rfl
          rw [parseV_eq fuel _ _ hsk]
          rw [parseTok, if_neg (by decide : ¬('-' : Char) = 'n'),
            if_neg (by decide : ¬('-' : Char) = 't'),
            if_neg (by decide : ¬('-' : Char) = 'f'),
            if_neg (by decide : ¬('-' : Char) = '"'),
            if_neg (by decide : ¬('-' : Char) = '['),
            if_neg (by decide : ¬('-' : Char) = '{'), if_pos rfl]
          have hok' : noDigitHead rest := by
            cases rest with
            | nil => trivial
            | cons c cs => exact hok
          rw [parseNeg, takeDigits_map (digitsOf_lt _) hok']
          obtain ⟨d, ds, hds⟩ := List.exists_cons_of_ne_nil (digitsOf_ne_nil (-m).toNat)
          rw [hds]
          show some (J.i (-(Nat.ofDigits 10 (d :: ds).reverse : Nat)), rest) = _
          rw [← hds]
          rw [show ((Nat.ofDigits 10 (digitsOf (-m).toNat).reverse : Nat) : Int) =
            (((-m).toNat : Nat) : Int) from congrArg _ (ofDigits_digitsOf _)]
          rw [Int.toNat_of_nonneg (by omega : (0 : Int) ≤ -m), neg_neg]
        · obtain ⟨d, ds, hds⟩ := List.exists_cons_of_ne_nil (digitsOf_ne_nil m.toNat)
          have hd10 : d < 10 := digitsOf_lt m.toNat d (by rw [hds]; simp)
          have hdig := digitChar_digit hd10
          have hsk : skipWs (intChars m ++ rest) =
              Nat.digitChar d :: (ds.map Nat.digitChar ++ rest) := by
            rw [show skipWs (intChars m ++ rest) = intChars m ++ rest from
              dump_head_notWs (J.i m) rest]
            rw [intChars, if_neg hm, natChars_eq, hds]
            rfl
          rw [parseV_eq fuel _ _ hsk]
          obtain ⟨hn', ht', hf', hq', hb', hc', hm'⟩ := digit_ne_keys hdig
          rw [parseTok, if_neg hn', if_neg ht', if_neg hf', if_neg hq', if_neg hb',
            if_neg hc', if_neg hm']
          have hok' : noDigitHead rest := by
            cases rest with
            | nil => trivial
            | cons c cs => exact hok
          rw [parseNum]
          rw [show (Nat.digitChar d :: (ds.map Nat.digitChar ++ rest)) =
            ((d :: ds).map Nat.digitChar ++ rest) from rfl]
          rw [takeDigits_map (by rw [← hds]; exact digitsOf_lt _) hok']
          show some (J.i (Nat.ofDigits 10 (d :: ds).reverse : Nat), rest) = _
          rw [← hds]
          rw [show ((Nat.ofDigits 10 (digitsOf m.toNat).reverse : Nat) : Int) =
            ((m.toNat : Nat) : Int) from congrArg _ (ofDigits_digitsOf _)]
          rw [Int.toNat_of_nonneg (by omega : (0 : Int) ≤ m)]
    · -- item lists
      intro x xs rest hn
      rw [parseArr]
      rw [ihV x (dumpItems xs ++ ']' :: rest)
        (by simp [needItems] at hn; omega) (numOk_items x xs rest)]
      show parseArrSep fuel x (dumpItems xs ++ ']' :: rest) = some (x :: xs, rest)
      cases xs with
      | nil =>
        rw [parseArrSep]
        rw [show dumpItems ([] : List J) ++ ']' :: rest = ']' :: rest from rfl]
        rw [skipWs_cons_notWs _ (by decide)]
        rfl
      | cons y ys =>
        rw [parseArrSep]
        rw [show dumpItems (y :: ys) ++ ']' :: rest =
          ',' :: ' ' :: (dumpV y ++ (dumpItems ys ++ ']' :: rest)) by
          show (',' :: ' ' :: dumpV y ++ dumpItems ys) ++ ']' :: rest = _
          simp [List.append_assoc]]
        rw [skipWs_cons_notWs _ (by decide)]
        show (parseArr fuel (' ' :: (dumpV y ++ (dumpItems ys ++ ']' :: rest)))).map
          (fun p => (x :: p.1, p.2)) = _
        rw [parseArr_space]
        rw [ihA y ys rest (by simp [needItems] at hn ⊢; omega)]
        rfl
    · -- field lists
      intro k v fs rest hn
      rw [parseObjFields]
      have hesc : escString k ++ ':' :: ' ' ::
          (dumpV v ++ (dumpFields fs ++ '}' :: rest)) =
          '"' :: (escBody k.data ++ '"' :: (':' :: ' ' ::
            (dumpV v ++ (dumpFields fs ++ '}' :: rest)))) := by
        show '"' :: ((escBody k.data ++ ['"']) ++ _) = _
        simp [List.append_assoc]
      rw [hesc, skipWs_cons_notWs _ (by decide)]
      rw [parseFieldStart]
      rw [parseStrBody_escBody k.data _ _
        (by have := escBody_length k.data
            simp only [List.length_append, List.length_cons]
            omega)]
      show parseFieldColon fuel ⟨k.data⟩ (':' :: ' ' ::
        (dumpV v ++ (dumpFields fs ++ '}' :: rest))) = some ((k, v) :: fs, rest)
      rw [parseFieldColon]
      rw [skipWs_cons_notWs _ (by decide)]
      show (match parseV fuel (' ' :: (dumpV v ++ (dumpFields fs ++ '}' :: rest))) with
        | none => none
        | some (v', r3) => parseFieldEnd fuel ⟨k.data⟩ v' r3) = some ((k, v) :: fs, rest)
      rw [parseV_space]
      rw [ihV v (dumpFields fs ++ '}' :: rest)
        (by simp [needFields] at hn; omega) (numOk_fields v fs rest)]
      show parseFieldEnd fuel ⟨k.data⟩ v (dumpFields fs ++ '}' :: rest) =
        some ((k, v) :: fs, rest)
      rw [parseFieldEnd]
      cases fs with
      | nil =>
        rw [show dumpFields ([] : List (String × J)) ++ '}' :: rest =
          '}' :: rest from rfl]
        rw [skipWs_cons_notWs _ (by decide)]
        rfl
      | cons g gs =>
        obtain ⟨k2, v2⟩ := g
        rw [show dumpFields ((k2, v2) :: gs) ++ '}' :: rest =
          ',' :: ' ' :: (escString k2 ++ ':' :: ' ' ::
            (dumpV v2 ++ (dumpFields gs ++ '}' :: rest))) by
          show (',' :: ' ' :: escString k2 ++ ':' :: ' ' :: dumpV v2 ++ dumpFields gs)
            ++ '}' :: rest = _
          simp [List.append_assoc]]
        rw [skipWs_cons_notWs _ (by decide)]
        show (parseObjFields fuel (' ' :: (escString k2 ++ ':' :: ' ' ::
          (dumpV v2 ++ (dumpFields gs ++ '}' :: rest))))).map
          (fun p => (((⟨k.data⟩ : String), v) :: p.1, p.2)) = _
        rw [parseObjFields_space]
        rw [ihO k2 v2 gs rest (by simp [needFields] at hn ⊢; omega)]
        rfl

theorem natChars_ne_nil (n : Nat) : natChars n ≠ [] := by
  rw [natChars_eq]
  simp [digitsOf_ne_nil]

theorem intChars_length (m : Int) : 1 ≤ (intChars m).length := by
  unfold intChars
  split
  · simp
  · have := natChars_ne_nil m.toNat
    cases h : natChars m.toNat with
    | nil => exact absurd h this
    | cons c cs => simp [h]

/-- The fuel `loads` supplies (input length plus one) is always enough:
`needV` is bounded by the printed length. -/
theorem need_le_length : ∀ n : Nat,
    (∀ v : J, sizeOf v ≤ n → needV v ≤ (dumpV v).length) ∧
    (∀ xs : List J, sizeOf xs ≤ n → needItems xs ≤ (dumpItems xs).length) ∧
    (∀ fs : List (String × J), sizeOf fs ≤ n → needFields fs ≤ (dumpFields fs).length) := by
  intro n
  induction n with
  | zero =>
    refine ⟨?_, ?_, ?_⟩
    · intro v hv; exfalso; cases v <;> simp at hv
    · intro xs hxs; exfalso; cases xs <;> simp at hxs
    · intro fs hfs; exfalso; cases fs <;> simp at hfs
  | succ n ih =>
    obtain ⟨ihV, ihA, ihO⟩ := ih
    refine ⟨?_, ?_, ?_⟩
    · intro v hv
      cases v with
      | null => simp [needV, dumpV]
      | b x => cases x <;> simp [needV, dumpV]
      | i m =>
        have := intChars_length m
        simp only [needV, dumpV]
        omega
      | s str => simp [needV, dumpV, escString]
      | arr l =>
        cases l with
        | nil => simp [needV, needItems, dumpV]
        | cons x xs =>
          have hx : sizeOf x ≤ n := by simp at hv; omega
          have hxs : sizeOf xs ≤ n := by simp at hv; omega
          have h1 := ihV x hx
          have h2 := ihA xs hxs
          simp only [needV, needItems, dumpV, List.length_cons, List.length_append]
          omega
      | obj l =>
        match l with
        | [] => simp [needV, needFields, dumpV]
        | (k, v) :: fs =>
          have hv2 : sizeOf v ≤ n := by simp at hv; omega
          have hfs : sizeOf fs ≤ n := by simp at hv; omega
          have h1 := ihV v hv2
          have h2 := ihO fs hfs
          simp only [needV, needFields, dumpV, List.length_cons, List.length_append]
          omega
    · intro xs hxs
      cases xs with
      | nil => simp [needItems, dumpItems]
      | cons x xs =>
        have hx : sizeOf x ≤ n := by simp at hxs; omega
        have hxs2 : sizeOf xs ≤ n := by simp at hxs; omega
        have h1 := ihV x hx
        have h2 := ihA xs hxs2
        simp only [needItems, dumpItems, List.length_cons, List.length_append]
        omega
    · intro fs hfs
      cases fs with
      | nil => simp [needFields, dumpFields]
      | cons g gs =>
        obtain ⟨k, v⟩ := g
        have hv2 : sizeOf v ≤ n := by simp at hfs; omega
        have hgs : sizeOf gs ≤ n := by simp at hfs; omega
        have h1 := ihV v hv2
        have h2 := ihO gs hgs
        simp only [needFields, dumpFields, List.length_cons, List.length_append]
        omega

/-- The central serialization fact: `json.loads (json.dumps v)`
recovers `v` exactly. -/
theorem loads_dumps (v : J) : loads (dumps v) = some v := by
  unfold loads dumps
  have hb : needV v ≤ (dumpV v).length + 1 := by
    have := (need_le_length (sizeOf v)).1 v (le_refl _)
    omega
  have h := (parse_dump_all ((dumpV v).length + 1)).1 v [] hb (by cases v <;> trivial)
  rw [List.append_nil] at h
  rw [show (String.mk (dumpV v)).data = dumpV v from rfl]
  rw [h]
  show (if skipWs ([] : List Char) = [] then some v else none) = some v
  rw [if_pos (by rfl : skipWs ([] : List Char) = [])]

/-! ## The SQLite-backed session store (`SQLiteSession`)

The `session` table maps `key TEXT PRIMARY KEY` to `value TEXT`; rows
are modelled as an association list in rowid order (the upsert keeps the
row in place). -/

/-- Point `SELECT value FROM session WHERE key=?`. -/
def sread (k : String) : List (String × String) → Option String
  | [] => none
  | (k', v) :: rest => if k' = k then some v else sread k rest

/-- The `INSERT ... ON CONFLICT(key) DO UPDATE` upsert. -/
def swrite (k v : String) : List (String × String) → List (String × String)
  | [] => [(k, v)]
  | (k', v') :: rest =>
    if k' = k then (k', v) :: rest else (k', v') :: swrite k v rest

/-- `SQLiteSession.write`: serialize with `json.dumps` and upsert. -/
def sqlWrite (st : List (String × String)) (k : String) (v : J) :
    List (String × String) :=
  swrite k (dumps v) st

/-- `SQLiteSession.read(key, default)`: the stored value parsed with
`json.loads`, the raw TEXT if parsing fails, or the default if the key
is absent. -/
def sqlRead (st : List (String × String)) (k : String) (d : J) : J :=
  match sread k st with
  | none => d
  | some txt =>
    match loads txt with
    | some v => v
    | none => J.s txt

/-- `SQLiteSession.read(key)` with the default `None` (as the manager's
control functions call it). -/
def sqlReadOpt (st : List (String × String)) (k : String) : Option J :=
  match sread k st with
  | none => none
  | some txt =>
    match loads txt with
    | some v => some v
    | none => some (J.s txt)

/-- `SQLiteSession.all()`: every key with its parsed (or raw) value. -/
def sqlAll (st : List (String × String)) : List (String × J) :=
  st.map (fun kv => (kv.1,
    match loads kv.2 with
    | some v => v
    | none => J.s kv.2))

/-! ## The operation manager

`_simulate_task` runs in its own thread; we model each thread by a
program counter over the loop structure of the source, so that any
interleaving of Supervisor API calls and runner micro-steps is a trace. -/

/-- Program counter of `_simulate_task`:
`run i` — at the top of loop iteration `i`, about to read the status;
`working i` — past the status check, about to sleep and write progress
`i+1`; `pauseWait i` — inside the pause wait loop; `finMeta` — result
written, about to mark the metadata finished; `done` — returned. -/
inductive RState where
  | run (i : Nat)
  | working (i : Nat)
  | pauseWait (i : Nat)
  | finMeta
  | done
deriving Repr, DecidableEq

/-- One spawned runner thread: the `duration` argument it was started
with, and its program counter. -/
structure Runner where
  dur : Int
  rs : RState
deriving Repr, DecidableEq

/-- `steps = max(1, duration)` in `_simulate_task`. -/
def nsteps (dur : Int) : Nat := (max 1 dur).toNat

/-- Whole-system state: the durable store, the runner registry
(`TASKS` plus each thread's position), and the metrics counters. -/
structure Sys where
  store : List (String × String)
  runners : List (String × Runner)
  counters : List (String × Nat)
deriving Repr, DecidableEq

def metaKey (id : String) : String := "op:" ++ id ++ ":meta"
def progKey (id : String) : String := "op:" ++ id ++ ":progress"
def resultKey (id : String) : String := "op:" ++ id ++ ":result"

/-- Replace the value at a key, or append it (Python dict update). -/
def alistSet {α : Type} (m : List (String × α)) (k : String) (v : α) :
    List (String × α) :=
  match m with
  | [] => [(k, v)]
  | (k', v') :: rest =>
    if k' = k then (k', v) :: rest else (k', v') :: alistSet rest k v

/-- `Metrics.inc_counter(name)`. -/
def bumpCounter (cs : List (String × Nat)) (name : String) : List (String × Nat) :=
  match cs with
  | [] => [(name, 1)]
  | (n, v) :: rest =>
    if n = name then (n, v + 1) :: rest else (n, v) :: bumpCounter rest name

/-- Move one runner's program counter. -/
def setR (s : Sys) (id : String) (r : Runner) : Sys :=
  { s with runners := alistSet s.runners id r }

/-- `start_operation(duration, metadata)`, after `uuid4()` chose `id`
and `int(time.time())` returned `t`.  Note `meta.update(metadata)` runs
after the reserved fields are set, so caller annotations can overwrite
them. -/
def start_operation (s : Sys) (id : String) (dur t : Int)
    (metadata : List (String × J)) : Sys :=
  let meta := dictUpdate
    [("status", J.s "running"), ("duration", J.i dur), ("created_at", J.i t)] metadata
  let s1 : Sys := { s with store := sqlWrite s.store (metaKey id) (J.obj meta) }
  let s2 : Sys := { s1 with store := (sqlWrite s1.store (progKey id)
    (J.obj [("step", J.i 0), ("total", J.i dur)])) }
  let s3 : Sys := { s2 with runners := s2.runners ++ [(id, ⟨dur, RState.run 0⟩)] }
  { s3 with counters := bumpCounter s3.counters "ops_started_total" }

/-- Common body of `pause_operation` / `resume_operation` /
`cancel_operation`: read the metadata, return `False` when it is falsy
(`if not meta`), else assign `meta["status"]` and write it back.
`none` models the `TypeError` Python raises when the stored metadata is
a truthy non-dict (unreachable from this system's events). -/
def setStatusOp (s : Sys) (id new counter : String) : Option (Bool × Sys) :=
  match sqlReadOpt s.store (metaKey id) with
  | none => some (false, s)
  | some m =>
    if pyTruthy m then
      match m with
      | J.obj fields =>
        some (true, { s with
          store := (sqlWrite s.store (metaKey id) (J.obj (objSet fields "status" (J.s new)))),
          counters := bumpCounter s.counters counter })
      | _ => none
    else some (false, s)

def pause_operation (s : Sys) (id : String) : Option (Bool × Sys) :=
  setStatusOp s id "paused" "ops_paused_total"

def resume_operation (s : Sys) (id : String) : Option (Bool × Sys) :=
  setStatusOp s id "running" "ops_resumed_total"

def cancel_operation (s : Sys) (id : String) : Option (Bool × Sys) :=
  setStatusOp s id "cancelled" "ops_cancel_requested_total"

/-- The runner's status poll: `session.read(meta_key, {}).get("status")`.
`none` models the `AttributeError` on a non-dict stored value
(unreachable here). -/
def pollStatus (s : Sys) (id : String) : Option (Option J) :=
  match sqlRead s.store (metaKey id) (J.obj []) with
  | J.obj m => some (objGet m "status")
  | _ => none

/-- One micro-step of `_simulate_task` for operation `id` (`t` is the
clock value `int(time.time())` would return at that moment).  `none`
when the runner does not exist, has returned, or would raise. -/
def runnerStep (s : Sys) (id : String) (t : Int) : Option Sys :=
  match s.runners.lookup id with
  | none => none
  | some r =>
    match r.rs with
    | .run i =>
      if i < nsteps r.dur then
        match pollStatus s id with
        | none => none
        | some st =>
          if isStrVal st "paused" then some (setR s id ⟨r.dur, .pauseWait i⟩)
          else some (setR s id ⟨r.dur, .working i⟩)
      else
        some (setR { s with store := (sqlWrite s.store (resultKey id)
          (J.obj [("status", J.s "finished"), ("completed_at", J.i t)])) }
          id ⟨r.dur, .finMeta⟩)
    | .working i =>
      some (setR { s with
        store := (sqlWrite s.store (progKey id)
          (J.obj [("step", J.i (i + 1)), ("total", J.i (nsteps r.dur))])),
        counters := bumpCounter s.counters "ops_heartbeat_total" }
        id ⟨r.dur, .run (i + 1)⟩)
    | .pauseWait i =>
      match pollStatus s id with
      | none => none
      | some st =>
        if isStrVal st "running" then some (setR s id ⟨r.dur, .working i⟩)
        else if isStrVal st "cancelled" then
          some (setR { s with
            store := (sqlWrite s.store (resultKey id) (J.obj [("status", J.s "cancelled")])),
            counters := bumpCounter s.counters "ops_cancelled_total" }
            id ⟨r.dur, .done⟩)
        else some s
    | .finMeta =>
      match sqlRead s.store (metaKey id) (J.obj []) with
      | J.obj m =>
        some (setR { s with
          store := (sqlWrite s.store (metaKey id) (J.obj (objSet m "status" (J.s "finished")))),
          counters := bumpCounter s.counters "ops_finished_total" }
          id ⟨r.dur, .done⟩)
      | _ => none
    | .done => none

/-- One row of `list_operations()`. -/
structure OpView where
  meta : J
  progress : Option J
  result : Option J
deriving Repr

/-- `str.startswith(pre)`, on explicit character lists. -/
def listPrefix : List Char → List Char → Bool
  | [], _ => true
  | _ :: _, [] => false
  | c :: cs, d :: ds => c == d && listPrefix cs ds

/-- `str.endswith(suf)`, on explicit character lists. -/
def listSuffix (p l : List Char) : Bool := listPrefix p.reverse l.reverse

/-- The key filter in `list_operations`: `k.startswith("op:")`,
`k.count(":") >= 2`, `k.endswith(":meta")`. -/
def isMetaKey (k : String) : Bool :=
  listPrefix "op:".data k.data && decide (2 ≤ k.data.count ':') &&
    listSuffix ":meta".data k.data

/-- Python `str.split(":")` (non-empty separator). -/
def splitColon : List Char → List (List Char)
  | [] => [[]]
  | c :: cs =>
    if c = ':' then [] :: splitColon cs
    else
      match splitColon cs with
      | [] => [[c]]
      | w :: ws => (c :: w) :: ws

/-- `k.split(":")[1]`. -/
def extractId (k : String) : String :=
  ⟨(splitColon k.data).getD 1 []⟩

/-- The row built for one matching metadata key. -/
def viewFor (s : Sys) (opid : String) (v : J) : OpView :=
  { meta := v
    progress := sqlReadOpt s.store (progKey opid)
    result := sqlReadOpt s.store (resultKey opid) }

/-- `list_operations()`: scan every stored key, keep the metadata-shaped
ones, join with progress and result. -/
def list_operations (s : Sys) : List (String × OpView) :=
  (sqlAll s.store).foldl
    (fun ops kv =>
      if isMetaKey kv.1 then alistSet ops (extractId kv.1) (viewFor s (extractId kv.1) kv.2)
      else ops)
    []

/-! ## Event semantics -/

/-- External events: the Supervisor API calls and runner micro-steps.
`start` carries the fresh uuid and the clock value; `rstep` carries the
clock value used if the step writes `completed_at`. -/
inductive Ev where
  | start (id : String) (dur t : Int) (metadata : List (String × J))
  | pause (id : String)
  | resume (id : String)
  | cancel (id : String)
  | rstep (id : String) (t : Int)

/-- Execute one event.  `start` requires the id to be fresh (uuid4
collisions are assumed away); a disabled or raising event yields
`none`. -/
def exec : Ev → Sys → Option Sys
  | .start id dur t md, s =>
    if sread (metaKey id) s.store = none ∧ s.runners.lookup id = none then
      some (start_operation s id dur t md)
    else none
  | .pause id, s => (pause_operation s id).map Prod.snd
  | .resume id, s => (resume_operation s id).map Prod.snd
  | .cancel id, s => (cancel_operation s id).map Prod.snd
  | .rstep id t, s => runnerStep s id t

/-- The empty system: fresh store, no threads. -/
def initSys : Sys := ⟨[], [], []⟩

/-- Run a list of events, failing if any is disabled. -/
def runEvs : List Ev → Sys → Option Sys
  | [], s => some s
  | e :: es, s =>
    match exec e s with
    | none => none
    | some s2 => runEvs es s2

/-- Reachable system states. -/
def Reachable (s : Sys) : Prop := ∃ evs, runEvs evs initSys = some s

/-- One step of the system. -/
def SysStep (s s2 : Sys) : Prop := ∃ e, exec e s = some s2

/-! ## Observables -/

/-- The metadata `status` field, when it is a string. -/
def statusStr (s : Sys) (id : String) : Option String :=
  match sqlReadOpt s.store (metaKey id) with
  | some (J.obj m) =>
    match objGet m "status" with
    | some (J.s st) => some st
    | _ => none
  | _ => none

/-- The stored progress record's `(step, total)`. -/
def progOf (s : Sys) (id : String) : Option (Int × Int) :=
  match sqlReadOpt s.store (progKey id) with
  | some (J.obj m) =>
    match objGet m "step", objGet m "total" with
    | some (J.i p), some (J.i tot) => some (p, tot)
    | _, _ => none
  | _ => none

/-- The stored result record, if any. -/
def resultOf (s : Sys) (id : String) : Option J :=
  sqlReadOpt s.store (resultKey id)

/-! ## Store and key lemmas -/

theorem sread_swrite_self (k v : String) (st : List (String × String)) :
    sread k (swrite k v st) = some v := by
  induction st with
  | nil => simp [sread, swrite]
  | cons kv rest ih =>
    obtain ⟨k', v'⟩ := kv
    by_cases h : k' = k
    · subst h; simp [sread, swrite]
    · simp [sread, swrite, h, ih]

theorem sread_swrite_ne {k k' : String} (h : k' ≠ k) (v : String)
    (st : List (String × String)) :
    sread k (swrite k' v st) = sread k st := by
  induction st with
  | nil => simp [sread, swrite, h]
  | cons kv rest ih =>
    obtain ⟨k2, v2⟩ := kv
    by_cases h2 : k2 = k'
    · subst h2
      simp [sread, swrite, h]
    · by_cases h3 : k2 = k <;> simp [sread, swrite, h2, h3, ih, Ne.symm h]

theorem sqlReadOpt_write_self (st : List (String × String)) (k : String) (v : J) :
    sqlReadOpt (sqlWrite st k v) k = some v := by
  rw [sqlReadOpt, sqlWrite, sread_swrite_self]
  simp only [loads_dumps]

theorem sqlReadOpt_write_ne {k k' : String} (h : k' ≠ k)
    (st : List (String × String)) (v : J) :
    sqlReadOpt (sqlWrite st k' v) k = sqlReadOpt st k := by
  rw [sqlReadOpt, sqlWrite, sread_swrite_ne h, sqlReadOpt]

theorem sqlRead_write_self (st : List (String × String)) (k : String) (v d : J) :
    sqlRead (sqlWrite st k v) k d = v := by
  rw [sqlRead, sqlWrite, sread_swrite_self]
  simp only [loads_dumps]

theorem sqlRead_write_ne {k k' : String} (h : k' ≠ k)
    (st : List (String × String)) (v d : J) :
    sqlRead (sqlWrite st k' v) k d = sqlRead st k d := by
  rw [sqlRead, sqlWrite, sread_swrite_ne h, sqlRead]

theorem swrite_keys (k v : String) (st : List (String × String)) :
    (swrite k v st).map Prod.fst =
      if k ∈ st.map Prod.fst then st.map Prod.fst else st.map Prod.fst ++ [k] := by
  induction st with
  | nil => simp [swrite]
  | cons kv rest ih =>
    obtain ⟨k', v'⟩ := kv
    by_cases h : k' = k
    · subst h; simp [swrite]
    · simp only [swrite, if_neg h, List.map_cons, List.mem_cons]
      rw [ih]
      by_cases h2 : k ∈ rest.map Prod.fst
      · simp [h2, Ne.symm h]
      · simp [h2, Ne.symm h]

theorem sread_eq_none (k : String) (st : List (String × String)) :
    sread k st = none ↔ k ∉ st.map Prod.fst := by
  induction st with
  | nil => simp [sread]
  | cons kv rest ih =>
    obtain ⟨k', v'⟩ := kv
    by_cases h : k' = k
    · subst h; simp [sread]
    · simp [sread, h, ih, Ne.symm h]

/-- Last characters of the three key suffixes. -/
theorem metaKey_last (a : String) : (metaKey a).data.getLast? = some 'a' := by
  unfold metaKey
  rw [String.data_append, List.getLast?_append]
  rw [show (":meta" : String).data.getLast? = some 'a' from by decide]
  rfl

theorem progKey_last (a : String) : (progKey a).data.getLast? = some 's' := by
  unfold progKey
  rw [String.data_append, List.getLast?_append]
  rw [show (":progress" : String).data.getLast? = some 's' from by decide]
  rfl

theorem resultKey_last (a : String) : (resultKey a).data.getLast? = some 't' := by
  unfold resultKey
  rw [String.data_append, List.getLast?_append]
  rw [show (":result" : String).data.getLast? = some 't' from by decide]
  rfl

/-- The record keys of any two operations never collide across kinds,
and each kind is injective in the operation id. -/
theorem metaKey_inj {a b : String} (h : metaKey a = metaKey b) : a = b := by
  unfold metaKey at h
  have hd := congrArg String.data h
  simp only [String.data_append, List.append_assoc] at hd
  exact String.ext (List.append_cancel_right (List.append_cancel_left hd))

theorem progKey_inj {a b : String} (h : progKey a = progKey b) : a = b := by
  unfold progKey at h
  have hd := congrArg String.data h
  simp only [String.data_append, List.append_assoc] at hd
  exact String.ext (List.append_cancel_right (List.append_cancel_left hd))

theorem resultKey_inj {a b : String} (h : resultKey a = resultKey b) : a = b := by
  unfold resultKey at h
  have hd := congrArg String.data h
  simp only [String.data_append, List.append_assoc] at hd
  exact String.ext (List.append_cancel_right (List.append_cancel_left hd))

theorem metaKey_ne_progKey (a b : String) : metaKey a ≠ progKey b := by
  intro h
  have := congrArg (fun s => s.data.getLast?) h
  simp only [] at this
  rw [metaKey_last, progKey_last] at this
  simp at this

theorem metaKey_ne_resultKey (a b : String) : metaKey a ≠ resultKey b := by
  intro h
  have := congrArg (fun s => s.data.getLast?) h
  simp only [] at this
  rw [metaKey_last, resultKey_last] at this
  simp at this

theorem progKey_ne_resultKey (a b : String) : progKey a ≠ resultKey b := by
  intro h
  have := congrArg (fun s => s.data.getLast?) h
  simp only [] at this
  rw [progKey_last, resultKey_last] at this
  simp at this

/-! ## Dict lemmas -/

theorem lookup_cons_self {α : Type} (k : String) (v : α) (l : List (String × α)) :
    List.lookup k ((k, v) :: l) = some v := by
  simp [List.lookup]

theorem lookup_cons_ne {α : Type} {k k' : String} (h : k' ≠ k) (v : α)
    (l : List (String × α)) :
    List.lookup k ((k', v) :: l) = List.lookup k l := by
  simp only [List.lookup]
  rw [show (k == k') = false from beq_eq_false_iff_ne.mpr (Ne.symm h)]

theorem objSet_lookup_self (m : List (String × J)) (k : String) (v : J) :
    (objSet m k v).lookup k = some v := by
  induction m with
  | nil => simp [objSet, lookup_cons_self]
  | cons kv rest ih =>
    obtain ⟨k', v'⟩ := kv
    by_cases h : k' = k
    · subst h
      simp [objSet, lookup_cons_self]
    · rw [objSet, if_neg h, lookup_cons_ne h, ih]

theorem objSet_lookup_ne {q k : String} (h : k ≠ q) (m : List (String × J)) (v : J) :
    (objSet m k v).lookup q = m.lookup q := by
  induction m with
  | nil =>
    rw [show objSet [] k v = [(k, v)] from rfl, lookup_cons_ne h]
  | cons kv rest ih =>
    obtain ⟨k', v'⟩ := kv
    by_cases h2 : k' = k
    · subst h2
      rw [objSet, if_pos rfl, lookup_cons_ne h, lookup_cons_ne h]
    · by_cases h3 : k' = q
      · subst h3
        rw [objSet, if_neg h2, lookup_cons_self, lookup_cons_self]
      · rw [objSet, if_neg h2, lookup_cons_ne h3, lookup_cons_ne h3, ih]

theorem objSet_id {m : List (String × J)} {k : String} {v : J}
    (h : m.lookup k = some v) : objSet m k v = m := by
  induction m with
  | nil => simp [List.lookup] at h
  | cons kv rest ih =>
    obtain ⟨k', v'⟩ := kv
    by_cases h2 : k' = k
    · subst h2
      rw [lookup_cons_self] at h
      obtain rfl : v' = v := by injection h
      rw [objSet, if_pos rfl]
    · rw [lookup_cons_ne h2] at h
      rw [objSet, if_neg h2, ih h]

theorem alistSet_lookup_self {α : Type} (m : List (String × α)) (k : String) (v : α) :
    (alistSet m k v).lookup k = some v := by
  induction m with
  | nil => simp [alistSet, lookup_cons_self]
  | cons kv rest ih =>
    obtain ⟨k', v'⟩ := kv
    by_cases h : k' = k
    · subst h
      simp [alistSet, lookup_cons_self]
    · rw [alistSet, if_neg h, lookup_cons_ne h, ih]

theorem alistSet_lookup_ne {α : Type} {q k : String} (h : k ≠ q)
    (m : List (String × α)) (v : α) :
    (alistSet m k v).lookup q = m.lookup q := by
  induction m with
  | nil =>
    rw [show alistSet [] k v = [(k, v)] from rfl, lookup_cons_ne h]
  | cons kv rest ih =>
    obtain ⟨k', v'⟩ := kv
    by_cases h2 : k' = k
    · subst h2
      rw [alistSet, if_pos rfl, lookup_cons_ne h, lookup_cons_ne h]
    · by_cases h3 : k' = q
      · subst h3
        rw [alistSet, if_neg h2, lookup_cons_self, lookup_cons_self]
      · rw [alistSet, if_neg h2, lookup_cons_ne h3, lookup_cons_ne h3, ih]

theorem dictUpdate_cons (m : List (String × J)) (k : String) (v : J)
    (rest : List (String × J)) :
    dictUpdate m ((k, v) :: rest) = dictUpdate (objSet m k v) rest := rfl

theorem dictUpdate_lookup_none {upd : List (String × J)} {k : String}
    (h : upd.lookup k = none) (m : List (String × J)) :
    (dictUpdate m upd).lookup k = m.lookup k := by
  induction upd generalizing m with
  | nil => rfl
  | cons kv rest ih =>
    obtain ⟨k', v'⟩ := kv
    have hk : k' ≠ k := by
      intro hkk
      subst hkk
      rw [lookup_cons_self] at h
      cases h
    rw [lookup_cons_ne hk] at h
    rw [dictUpdate_cons, ih h, objSet_lookup_ne hk]

theorem dictUpdate_isSome {m : List (String × J)} {k : String}
    (h : (m.lookup k).isSome) (upd : List (String × J)) :
    ((dictUpdate m upd).lookup k).isSome := by
  induction upd generalizing m with
  | nil => exact h
  | cons kv rest ih =>
    obtain ⟨k', v'⟩ := kv
    rw [dictUpdate_cons]
    apply ih
    by_cases h2 : k' = k
    · subst h2
      simp [objSet_lookup_self]
    · rw [objSet_lookup_ne (Ne.intro h2)]
      exact h

/-! ## More store helpers -/

theorem sqlReadOpt_isSome (st : List (String × String)) (k : String) :
    (sqlReadOpt st k).isSome = (sread k st).isSome := by
  rw [sqlReadOpt]
  cases sread k st with
  | none => rfl
  | some txt =>
    show (match loads txt with
      | some v => some v
      | none => some (J.s txt)).isSome = (some txt).isSome
    cases loads txt <;> rfl

theorem sqlReadOpt_of_sread {st : List (String × String)} {k : String} {v : J}
    (h : sread k st = some (dumps v)) : sqlReadOpt st k = some v := by
  rw [sqlReadOpt, h]
  simp only [loads_dumps]

theorem sqlRead_of_sread {st : List (String × String)} {k : String} {v : J}
    (h : sread k st = some (dumps v)) (d : J) : sqlRead st k d = v := by
  rw [sqlRead, h]
  simp only [loads_dumps]

theorem swrite_mem {kv : String × String} {k v : String}
    {st : List (String × String)} (h : kv ∈ swrite k v st) :
    kv.1 = k ∨ kv ∈ st := by
  induction st with
  | nil =>
    simp [swrite] at h
    simp [h]
  | cons kv2 rest ih =>
    obtain ⟨k2, v2⟩ := kv2
    by_cases h2 : k2 = k
    · subst h2
      rw [swrite, if_pos rfl] at h
      rcases List.mem_cons.mp h with rfl | hm
      · exact Or.inl rfl
      · exact Or.inr (List.mem_cons_of_mem _ hm)
    · rw [swrite, if_neg h2] at h
      rcases List.mem_cons.mp h with rfl | hm
      · exact Or.inr (List.mem_cons_self _ _)
      · rcases ih hm with h3 | h3
        · exact Or.inl h3
        · exact Or.inr (List.mem_cons_of_mem _ h3)

theorem swrite_nodup {k v : String} {st : List (String × String)}
    (h : (st.map Prod.fst).Nodup) : ((swrite k v st).map Prod.fst).Nodup := by
  rw [swrite_keys]
  split
  · exact h
  · simp only [List.nodup_append, List.nodup_cons, List.nodup_nil]
    refine ⟨h, by simp, ?_⟩
    intro a ha
    simp only [List.mem_singleton]
    intro hak
    subst hak
    exact absurd ha (by assumption)

theorem lookup_append_some {α : Type} {l : List (String × α)} {q : String} {v : α}
    (h : l.lookup q = some v) (l2 : List (String × α)) :
    (l ++ l2).lookup q = some v := by
  induction l with
  | nil => simp [List.lookup] at h
  | cons kv rest ih =>
    obtain ⟨k', v'⟩ := kv
    by_cases h2 : k' = q
    · subst h2
      rw [lookup_cons_self] at h
      rw [List.cons_append, lookup_cons_self]
      exact h
    · rw [lookup_cons_ne h2] at h
      rw [List.cons_append, lookup_cons_ne h2]
      exact ih h

theorem lookup_append_none {α : Type} {l : List (String × α)} {q : String}
    (h : l.lookup q = none) (l2 : List (String × α)) :
    (l ++ l2).lookup q = l2.lookup q := by
  induction l with
  | nil => rfl
  | cons kv rest ih =>
    obtain ⟨k', v'⟩ := kv
    by_cases h2 : k' = q
    · subst h2
      rw [lookup_cons_self] at h
      cases h
    · rw [lookup_cons_ne h2] at h
      rw [List.cons_append, lookup_cons_ne h2]
      exact ih h

/-! ## The system invariant -/

/-- Relation between a runner's loop index and its stored progress
record: either the creation record `(0, duration)` or a runner-written
record `(i, max 1 duration)`. -/
def pAt (dur : Int) (i : Nat) (p tot : Int) : Prop :=
  (i = 0 ∧ p = 0 ∧ tot = dur) ∨
  (1 ≤ i ∧ p = (i : Int) ∧ tot = ((nsteps dur : Nat) : Int))

/-- The stored progress as a function of the runner's program counter. -/
def progressInv (r : Runner) (p tot : Int) : Prop :=
  match r.rs with
  | .run i => i ≤ nsteps r.dur ∧ pAt r.dur i p tot
  | .working i => i < nsteps r.dur ∧ pAt r.dur i p tot
  | .pauseWait i => i < nsteps r.dur ∧ pAt r.dur i p tot
  | .finMeta => ∃ i, i ≤ nsteps r.dur ∧ pAt r.dur i p tot
  | .done => ∃ i, i ≤ nsteps r.dur ∧ pAt r.dur i p tot

/-- Invariant of every reachable system state. -/
structure SysInv (s : Sys) : Prop where
  keysNodup : (s.store.map Prod.fst).Nodup
  storeKeys : ∀ kv ∈ s.store, ∃ id, (s.runners.lookup id).isSome ∧
    (kv.1 = metaKey id ∨ kv.1 = progKey id ∨ kv.1 = resultKey id)
  metaRunner : ∀ id, (sread (metaKey id) s.store).isSome = (s.runners.lookup id).isSome
  progRunner : ∀ id, (sread (progKey id) s.store).isSome = (s.runners.lookup id).isSome
  metaWf : ∀ id r, s.runners.lookup id = some r →
    ∃ m, sread (metaKey id) s.store = some (dumps (J.obj m)) ∧ (m.lookup "status").isSome
  progWf : ∀ id r, s.runners.lookup id = some r →
    ∃ p tot, sread (progKey id) s.store =
      some (dumps (J.obj [("step", J.i p), ("total", J.i tot)])) ∧ progressInv r p tot
  resWf : ∀ id r, s.runners.lookup id = some r →
    (r.rs = RState.finMeta ∨ r.rs = RState.done) →
    (sread (resultKey id) s.store).isSome

theorem sysInv_init : SysInv initSys := by
  refine ⟨by simp [initSys], ?_, ?_, ?_, ?_, ?_, ?_⟩ <;>
    intro id <;> simp [initSys, List.lookup, sread]

/-! ## Invariant preservation -/

theorem lookup_snoc_self {α : Type} {l : List (String × α)} {id : String}
    (h : l.lookup id = none) (r : α) : (l ++ [(id, r)]).lookup id = some r := by
  rw [lookup_append_none h, lookup_cons_self]

theorem lookup_snoc_ne {α : Type} (l : List (String × α)) {q id : String}
    (h : q ≠ id) (r : α) : (l ++ [(id, r)]).lookup q = l.lookup q := by
  cases hq : l.lookup q with
  | some v => rw [lookup_append_some hq]
  | none =>
    rw [lookup_append_none hq, lookup_cons_ne (Ne.symm h)]
    rfl

theorem sysInv_start {s : Sys} (hI : SysInv s) {id : String} (dur t : Int)
    (md : List (String × J)) (hm : sread (metaKey id) s.store = none)
    (hr : s.runners.lookup id = none) :
    SysInv (start_operation s id dur t md) := by
  set mj : J := J.obj (dictUpdate
    [("status", J.s "running"), ("duration", J.i dur), ("created_at", J.i t)] md) with hmj
  have hstore : (start_operation s id dur t md).store =
      swrite (progKey id) (dumps (J.obj [("step", J.i 0), ("total", J.i dur)]))
        (swrite (metaKey id) (dumps mj) s.store) := rfl
  have hrun : (start_operation s id dur t md).runners =
      s.runners ++ [(id, ⟨dur, RState.run 0⟩)] := rfl
  have hlookup : ∀ q, (start_operation s id dur t md).runners.lookup q =
      if q = id then some ⟨dur, RState.run 0⟩ else s.runners.lookup q := by
    intro q
    rw [hrun]
    by_cases hq : q = id
    · subst hq
      rw [if_pos rfl, lookup_snoc_self hr]
    · rw [if_neg hq, lookup_snoc_ne _ hq]
  have hreadMeta : ∀ q, sread (metaKey q) (start_operation s id dur t md).store =
      if q = id then some (dumps mj) else sread (metaKey q) s.store := by
    intro q
    rw [hstore, sread_swrite_ne (Ne.symm (metaKey_ne_progKey q id))]
    by_cases hq : q = id
    · subst hq
      rw [if_pos rfl, sread_swrite_self]
    · rw [if_neg hq, sread_swrite_ne]
      intro hk
      exact hq (metaKey_inj hk).symm
  have hreadProg : ∀ q, sread (progKey q) (start_operation s id dur t md).store =
      if q = id then some (dumps (J.obj [("step", J.i 0), ("total", J.i dur)]))
      else sread (progKey q) s.store := by
    intro q
    rw [hstore]
    by_cases hq : q = id
    · subst hq
      rw [if_pos rfl, sread_swrite_self]
    · rw [if_neg hq, sread_swrite_ne (fun hk => hq (progKey_inj hk).symm),
        sread_swrite_ne (metaKey_ne_progKey id q)]
  have hreadRes : ∀ q, sread (resultKey q) (start_operation s id dur t md).store =
      sread (resultKey q) s.store := by
    intro q
    rw [hstore, sread_swrite_ne (progKey_ne_resultKey id q),
      sread_swrite_ne (metaKey_ne_resultKey id q)]
  constructor
  · rw [hstore]
    exact swrite_nodup (swrite_nodup hI.keysNodup)
  · intro kv hkv
    rw [hstore] at hkv
    rcases swrite_mem hkv with hk | hkv2
    · exact ⟨id, by rw [hlookup, if_pos rfl]; rfl, Or.inr (Or.inl hk)⟩
    · rcases swrite_mem hkv2 with hk | hkv3
      · exact ⟨id, by rw [hlookup, if_pos rfl]; rfl, Or.inl hk⟩
      · obtain ⟨id2, hid2, hdisj⟩ := hI.storeKeys kv hkv3
        refine ⟨id2, ?_, hdisj⟩
        rw [hlookup]
        split
        · rfl
        · exact hid2
  · intro q
    rw [hreadMeta, hlookup]
    by_cases hq : q = id
    · rw [if_pos hq, if_pos hq]
      rfl
    · rw [if_neg hq, if_neg hq, hI.metaRunner]
  · intro q
    rw [hreadProg, hlookup]
    by_cases hq : q = id
    · rw [if_pos hq, if_pos hq]
      rfl
    · rw [if_neg hq, if_neg hq, hI.progRunner]
  · intro q r hqr
    rw [hlookup] at hqr
    rw [hreadMeta]
    by_cases hq : q = id
    · rw [if_pos hq]
      refine ⟨_, rfl, ?_⟩
      apply dictUpdate_isSome
      rw [lookup_cons_self]
      rfl
    · rw [if_neg hq]
      rw [if_neg hq] at hqr
      exact hI.metaWf q r hqr
  · intro q r hqr
    rw [hlookup] at hqr
    rw [hreadProg]
    by_cases hq : q = id
    · rw [if_pos hq]
      rw [if_pos hq] at hqr
      obtain rfl : (⟨dur, RState.run 0⟩ : Runner) = r := by injection hqr
      refine ⟨0, dur, rfl, ?_⟩
      show 0 ≤ nsteps dur ∧ pAt dur 0 0 dur
      exact ⟨Nat.zero_le _, Or.inl ⟨rfl, rfl, rfl⟩⟩
    · rw [if_neg hq]
      rw [if_neg hq] at hqr
      exact hI.progWf q r hqr
  · intro q r hqr hterm
    rw [hlookup] at hqr
    rw [hreadRes]
    by_cases hq : q = id
    · rw [if_pos hq] at hqr
      obtain rfl : (⟨dur, RState.run 0⟩ : Runner) = r := by injection hqr
      rcases hterm with h | h <;> cases h
    · rw [if_neg hq] at hqr
      exact hI.resWf q r hqr hterm

/-- Behavior of `pause_operation` / `resume_operation` /
`cancel_operation` on an invariant state: not-found returns `False` and
leaves the state untouched; an existing operation gets exactly its
`status` field overwritten and the call returns `True`. -/
theorem setStatusOp_spec {s : Sys} (hI : SysInv s) (id new c : String) :
    (s.runners.lookup id = none → setStatusOp s id new c = some (false, s)) ∧
    (∀ r, s.runners.lookup id = some r → ∃ fields,
      sread (metaKey id) s.store = some (dumps (J.obj fields)) ∧
      (fields.lookup "status").isSome ∧
      setStatusOp s id new c = some (true,
        { s with
          store := (swrite (metaKey id)
            (dumps (J.obj (objSet fields "status" (J.s new)))) s.store),
          counters := bumpCounter s.counters c })) := by
  constructor
  · intro hnone
    have hs : sread (metaKey id) s.store = none := by
      have := hI.metaRunner id
      rw [hnone] at this
      simpa using this
    rw [setStatusOp, sqlReadOpt, hs]
  · intro r hr
    obtain ⟨fields, hread, hst⟩ := hI.metaWf id r hr
    refine ⟨fields, hread, hst, ?_⟩
    have hopt : sqlReadOpt s.store (metaKey id) = some (J.obj fields) :=
      sqlReadOpt_of_sread hread
    have hne : fields ≠ [] := by
      intro hemp
      subst hemp
      simp [List.lookup] at hst
    rw [setStatusOp, hopt]
    have htr : pyTruthy (J.obj fields) = true := by
      simp [pyTruthy, List.isEmpty_iff, hne]
    simp only [htr, if_true]
    rfl

theorem sysInv_setStatus {s : Sys} (hI : SysInv s) {id new c : String} {b : Bool}
    {s2 : Sys} (h : setStatusOp s id new c = some (b, s2)) : SysInv s2 := by
  cases hr : s.runners.lookup id with
  | none =>
    rw [(setStatusOp_spec hI id new c).1 hr] at h
    obtain ⟨rfl, rfl⟩ : b = false ∧ s2 = s := by
      simpa [eq_comm] using h
    exact hI
  | some r =>
    obtain ⟨fields, hread, hst, heq⟩ := (setStatusOp_spec hI id new c).2 r hr
    rw [heq] at h
    obtain ⟨rfl, rfl⟩ : b = true ∧ s2 = { s with
        store := (swrite (metaKey id)
          (dumps (J.obj (objSet fields "status" (J.s new)))) s.store),
        counters := bumpCounter s.counters c } := by
      simpa [eq_comm] using h
    set m2 : List (String × J) := objSet fields "status" (J.s new) with hm2
    have hreadMeta : ∀ q, sread (metaKey q)
        (swrite (metaKey id) (dumps (J.obj m2)) s.store) =
        if q = id then some (dumps (J.obj m2)) else sread (metaKey q) s.store := by
      intro q
      by_cases hq : q = id
      · subst hq
        rw [if_pos rfl, sread_swrite_self]
      · rw [if_neg hq, sread_swrite_ne (fun hk => hq (metaKey_inj hk).symm)]
    constructor
    · exact swrite_nodup hI.keysNodup
    · intro kv hkv
      rcases swrite_mem hkv with hk | hkv2
      · refine ⟨id, ?_, Or.inl hk⟩
        rw [hr]
        rfl
      · exact hI.storeKeys kv hkv2
    · intro q
      show (sread (metaKey q) _).isSome = _
      rw [hreadMeta]
      by_cases hq : q = id
      · rw [if_pos hq]
        subst hq
        rw [hr]
        rfl
      · rw [if_neg hq]
        exact hI.metaRunner q
    · intro q
      show (sread (progKey q) _).isSome = _
      rw [sread_swrite_ne (metaKey_ne_progKey id q)]
      exact hI.progRunner q
    · intro q r2 hqr
      show ∃ m, sread (metaKey q) _ = some (dumps (J.obj m)) ∧ (m.lookup "status").isSome
      rw [hreadMeta]
      by_cases hq : q = id
      · rw [if_pos hq]
        exact ⟨m2, rfl, by rw [hm2, objSet_lookup_self]; rfl⟩
      · rw [if_neg hq]
        exact hI.metaWf q r2 hqr
    · intro q r2 hqr
      show ∃ p tot, sread (progKey q) _ = _ ∧ _
      rw [sread_swrite_ne (metaKey_ne_progKey id q)]
      exact hI.progWf q r2 hqr
    · intro q r2 hqr hterm
      show (sread (resultKey q) _).isSome
      rw [sread_swrite_ne (metaKey_ne_resultKey id q)]
      exact hI.resWf q r2 hqr hterm

/-- Replacing one runner's program counter (no store change) preserves
the invariant, when the new counter is compatible with the stored
progress and the result record. -/
theorem sysInv_setR {s : Sys} (hI : SysInv s) {id : String} {r r2 : Runner}
    (hr : s.runners.lookup id = some r)
    (hprog : ∀ p tot, progressInv r p tot → progressInv r2 p tot)
    (hres : (r2.rs = RState.finMeta ∨ r2.rs = RState.done) →
      (sread (resultKey id) s.store).isSome) :
    SysInv (setR s id r2) := by
  have hlook : ∀ q, (setR s id r2).runners.lookup q =
      if q = id then some r2 else s.runners.lookup q := by
    intro q
    show (alistSet s.runners id r2).lookup q = _
    by_cases hq : q = id
    · subst hq
      rw [if_pos rfl, alistSet_lookup_self]
    · rw [if_neg hq, alistSet_lookup_ne (Ne.symm hq)]
  constructor
  · exact hI.keysNodup
  · intro kv hkv
    obtain ⟨id2, hid2, hdisj⟩ := hI.storeKeys kv hkv
    refine ⟨id2, ?_, hdisj⟩
    rw [hlook]
    split
    · rfl
    · exact hid2
  · intro q
    show (sread (metaKey q) s.store).isSome = _
    rw [hlook]
    by_cases hq : q = id
    · rw [if_pos hq, hI.metaRunner q, hq, hr]
      rfl
    · rw [if_neg hq]
      exact hI.metaRunner q
  · intro q
    show (sread (progKey q) s.store).isSome = _
    rw [hlook]
    by_cases hq : q = id
    · rw [if_pos hq, hI.progRunner q, hq, hr]
      rfl
    · rw [if_neg hq]
      exact hI.progRunner q
  · intro q r3 hqr
    rw [hlook] at hqr
    by_cases hq : q = id
    · rw [if_pos hq] at hqr
      subst hq
      exact hI.metaWf q r hr
    · rw [if_neg hq] at hqr
      exact hI.metaWf q r3 hqr
  · intro q r3 hqr
    rw [hlook] at hqr
    by_cases hq : q = id
    · rw [if_pos hq] at hqr
      obtain rfl : r2 = r3 := by injection hqr
      subst hq
      obtain ⟨p, tot, hread, hpi⟩ := hI.progWf q r hr
      refine ⟨p, tot, ?_, hprog p tot hpi⟩
      rw [show (setR s q r2).store = s.store from rfl, hread]
    · rw [if_neg hq] at hqr
      exact hI.progWf q r3 hqr
  · intro q r3 hqr hterm
    rw [hlook] at hqr
    by_cases hq : q = id
    · rw [if_pos hq] at hqr
      obtain rfl : r2 = r3 := by injection hqr
      subst hq
      exact hres hterm
    · rw [if_neg hq] at hqr
      exact hI.resWf q r3 hqr hterm

/-- Writing the result record while moving the runner to `finMeta` or
`done` preserves the invariant. -/
theorem sysInv_writeResult {s : Sys} (hI : SysInv s) {id : String} {r r2 : Runner}
    (hr : s.runners.lookup id = some r) (v : J) (c2 : List (String × Nat))
    (hprog : ∀ p tot, progressInv r p tot → progressInv r2 p tot) :
    SysInv (setR ⟨sqlWrite s.store (resultKey id) v, s.runners, c2⟩ id r2) := by
  have hlook : ∀ q,
      (setR ⟨sqlWrite s.store (resultKey id) v, s.runners, c2⟩ id r2).runners.lookup q =
      if q = id then some r2 else s.runners.lookup q := by
    intro q
    show (alistSet s.runners id r2).lookup q = _
    by_cases hq : q = id
    · subst hq
      rw [if_pos rfl, alistSet_lookup_self]
    · rw [if_neg hq, alistSet_lookup_ne (Ne.symm hq)]
  have hst : (setR ⟨sqlWrite s.store (resultKey id) v, s.runners, c2⟩ id r2).store =
      sqlWrite s.store (resultKey id) v := rfl
  have hmetaR : ∀ q, sread (metaKey q) (sqlWrite s.store (resultKey id) v) =
      sread (metaKey q) s.store := fun q =>
    sread_swrite_ne (Ne.symm (metaKey_ne_resultKey q id)) _ _
  have hprogR : ∀ q, sread (progKey q) (sqlWrite s.store (resultKey id) v) =
      sread (progKey q) s.store := fun q =>
    sread_swrite_ne (Ne.symm (progKey_ne_resultKey q id)) _ _
  constructor
  · rw [hst]
    exact swrite_nodup hI.keysNodup
  · intro kv hkv
    rw [hst] at hkv
    rcases swrite_mem hkv with hk | hkv2
    · refine ⟨id, ?_, Or.inr (Or.inr hk)⟩
      rw [hlook, if_pos rfl]
      rfl
    · obtain ⟨id2, hid2, hdisj⟩ := hI.storeKeys kv hkv2
      refine ⟨id2, ?_, hdisj⟩
      rw [hlook]
      split
      · rfl
      · exact hid2
  · intro q
    rw [hst, hmetaR, hlook]
    by_cases hq : q = id
    · rw [if_pos hq, hI.metaRunner q, hq, hr]
      rfl
    · rw [if_neg hq]
      exact hI.metaRunner q
  · intro q
    rw [hst, hprogR, hlook]
    by_cases hq : q = id
    · rw [if_pos hq, hI.progRunner q, hq, hr]
      rfl
    · rw [if_neg hq]
      exact hI.progRunner q
  · intro q r3 hqr
    rw [hlook] at hqr
    rw [hst, hmetaR]
    by_cases hq : q = id
    · subst hq
      exact hI.metaWf q r hr
    · rw [if_neg hq] at hqr
      exact hI.metaWf q r3 hqr
  · intro q r3 hqr
    rw [hlook] at hqr
    rw [hst, hprogR]
    by_cases hq : q = id
    · rw [if_pos hq] at hqr
      obtain rfl : r2 = r3 := by injection hqr
      subst hq
      obtain ⟨p, tot, hread, hpi⟩ := hI.progWf q r hr
      exact ⟨p, tot, hread, hprog p tot hpi⟩
    · rw [if_neg hq] at hqr
      exact hI.progWf q r3 hqr
  · intro q r3 hqr hterm
    rw [hlook] at hqr
    rw [hst]
    by_cases hq : q = id
    · subst hq
      rw [show sqlWrite s.store (resultKey q) v =
        swrite (resultKey q) (dumps v) s.store from rfl, sread_swrite_self]
      rfl
    · rw [if_neg hq] at hqr
      rw [show sqlWrite s.store (resultKey id) v =
        swrite (resultKey id) (dumps v) s.store from rfl,
        sread_swrite_ne (fun hk => hq (resultKey_inj hk).symm)]
      exact hI.resWf q r3 hqr hterm

/-- The runner's work micro-step: write progress `(i+1, steps)` and
advance to `run (i+1)`. -/
theorem sysInv_working {s : Sys} (hI : SysInv s) {id : String} {r : Runner} {i : Nat}
    (hr : s.runners.lookup id = some r) (hrs : r.rs = RState.working i)
    (c2 : List (String × Nat)) :
    SysInv (setR ⟨sqlWrite s.store (progKey id)
      (J.obj [("step", J.i (i + 1)), ("total", J.i (nsteps r.dur))]), s.runners, c2⟩
      id ⟨r.dur, RState.run (i + 1)⟩) := by
  obtain ⟨p0, tot0, hread0, hpi0⟩ := hI.progWf id r hr
  have hlt : i < nsteps r.dur := by
    rw [progressInv, hrs] at hpi0
    exact hpi0.1
  set pj : J := J.obj [("step", J.i (i + 1)), ("total", J.i (nsteps r.dur))] with hpj
  have hst : (setR ⟨sqlWrite s.store (progKey id) pj, s.runners, c2⟩
      id ⟨r.dur, RState.run (i + 1)⟩).store = sqlWrite s.store (progKey id) pj := rfl
  have hlook : ∀ q, (setR ⟨sqlWrite s.store (progKey id) pj, s.runners, c2⟩
      id ⟨r.dur, RState.run (i + 1)⟩).runners.lookup q =
      if q = id then some ⟨r.dur, RState.run (i + 1)⟩ else s.runners.lookup q := by
    intro q
    show (alistSet s.runners id _).lookup q = _
    by_cases hq : q = id
    · subst hq
      rw [if_pos rfl, alistSet_lookup_self]
    · rw [if_neg hq, alistSet_lookup_ne (Ne.symm hq)]
  have hmetaR : ∀ q, sread (metaKey q) (sqlWrite s.store (progKey id) pj) =
      sread (metaKey q) s.store := fun q =>
    sread_swrite_ne (Ne.symm (metaKey_ne_progKey q id)) _ _
  have hresR : ∀ q, sread (resultKey q) (sqlWrite s.store (progKey id) pj) =
      sread (resultKey q) s.store := fun q =>
    sread_swrite_ne (progKey_ne_resultKey id q) _ _
  have hprogR : ∀ q, sread (progKey q) (sqlWrite s.store (progKey id) pj) =
      if q = id then some (dumps pj) else sread (progKey q) s.store := by
    intro q
    by_cases hq : q = id
    · subst hq
      rw [if_pos rfl]
      exact sread_swrite_self _ _ _
    · rw [if_neg hq]
      exact sread_swrite_ne (fun hk => hq (progKey_inj hk).symm) _ _
  constructor
  · rw [hst]
    exact swrite_nodup hI.keysNodup
  · intro kv hkv
    rw [hst] at hkv
    rcases swrite_mem hkv with hk | hkv2
    · refine ⟨id, ?_, Or.inr (Or.inl hk)⟩
      rw [hlook, if_pos rfl]
      rfl
    · obtain ⟨id2, hid2, hdisj⟩ := hI.storeKeys kv hkv2
      refine ⟨id2, ?_, hdisj⟩
      rw [hlook]
      split
      · rfl
      · exact hid2
  · intro q
    rw [hst, hmetaR, hlook]
    by_cases hq : q = id
    · rw [if_pos hq, hI.metaRunner q, hq, hr]
      rfl
    · rw [if_neg hq]
      exact hI.metaRunner q
  · intro q
    rw [hst, hprogR, hlook]
    by_cases hq : q = id
    · rw [if_pos hq, if_pos hq]
      rfl
    · rw [if_neg hq, if_neg hq]
      exact hI.progRunner q
  · intro q r3 hqr
    rw [hlook] at hqr
    rw [hst, hmetaR]
    by_cases hq : q = id
    · subst hq
      exact hI.metaWf q r hr
    · rw [if_neg hq] at hqr
      exact hI.metaWf q r3 hqr
  · intro q r3 hqr
    rw [hlook] at hqr
    rw [hst, hprogR]
    by_cases hq : q = id
    · rw [if_pos hq] at hqr
      obtain rfl : (⟨r.dur, RState.run (i + 1)⟩ : Runner) = r3 := by injection hqr
      subst hq
      rw [if_pos rfl]
      refine ⟨i + 1, nsteps r.dur, rfl, ?_⟩
      show i + 1 ≤ nsteps r.dur ∧ pAt r.dur (i + 1) (i + 1) (nsteps r.dur)
      exact ⟨hlt, Or.inr ⟨Nat.succ_le_succ (Nat.zero_le i), by push_cast; ring, rfl⟩⟩
    · simp only [if_neg hq] at *
      exact hI.progWf q r3 hqr
  · intro q r3 hqr hterm
    rw [hlook] at hqr
    rw [hst, hresR]
    by_cases hq : q = id
    · rw [if_pos hq] at hqr
      obtain rfl : (⟨r.dur, RState.run (i + 1)⟩ : Runner) = r3 := by injection hqr
      rcases hterm with h | h <;> cases h
    · rw [if_neg hq] at hqr
      exact hI.resWf q r3 hqr hterm

/-- The runner's final micro-step: mark the metadata `finished` and
return. -/
theorem sysInv_finish {s : Sys} (hI : SysInv s) {id : String} {r : Runner}
    (hr : s.runners.lookup id = some r) (hrs : r.rs = RState.finMeta)
    (m : List (String × J)) (c2 : List (String × Nat)) :
    SysInv (setR ⟨sqlWrite s.store (metaKey id)
      (J.obj (objSet m "status" (J.s "finished"))), s.runners, c2⟩
      id ⟨r.dur, RState.done⟩) := by
  set mj : J := J.obj (objSet m "status" (J.s "finished")) with hmj
  have hst : (setR ⟨sqlWrite s.store (metaKey id) mj, s.runners, c2⟩
      id ⟨r.dur, RState.done⟩).store = sqlWrite s.store (metaKey id) mj := rfl
  have hlook : ∀ q, (setR ⟨sqlWrite s.store (metaKey id) mj, s.runners, c2⟩
      id ⟨r.dur, RState.done⟩).runners.lookup q =
      if q = id then some ⟨r.dur, RState.done⟩ else s.runners.lookup q := by
    intro q
    show (alistSet s.runners id _).lookup q = _
    by_cases hq : q = id
    · subst hq
      rw [if_pos rfl, alistSet_lookup_self]
    · rw [if_neg hq, alistSet_lookup_ne (Ne.symm hq)]
  have hmetaR : ∀ q, sread (metaKey q) (sqlWrite s.store (metaKey id) mj) =
      if q = id then some (dumps mj) else sread (metaKey q) s.store := by
    intro q
    by_cases hq : q = id
    · subst hq
      rw [if_pos rfl]
      exact sread_swrite_self _ _ _
    · rw [if_neg hq]
      exact sread_swrite_ne (fun hk => hq (metaKey_inj hk).symm) _ _
  have hprogR : ∀ q, sread (progKey q) (sqlWrite s.store (metaKey id) mj) =
      sread (progKey q) s.store := fun q =>
    sread_swrite_ne (metaKey_ne_progKey id q) _ _
  have hresR : ∀ q, sread (resultKey q) (sqlWrite s.store (metaKey id) mj) =
      sread (resultKey q) s.store := fun q =>
    sread_swrite_ne (metaKey_ne_resultKey id q) _ _
  constructor
  · rw [hst]
    exact swrite_nodup hI.keysNodup
  · intro kv hkv
    rw [hst] at hkv
    rcases swrite_mem hkv with hk | hkv2
    · refine ⟨id, ?_, Or.inl hk⟩
      rw [hlook, if_pos rfl]
      rfl
    · obtain ⟨id2, hid2, hdisj⟩ := hI.storeKeys kv hkv2
      refine ⟨id2, ?_, hdisj⟩
      rw [hlook]
      split
      · rfl
      · exact hid2
  · intro q
    rw [hst, hmetaR, hlook]
    by_cases hq : q = id
    · rw [if_pos hq, if_pos hq]
      rfl
    · rw [if_neg hq, if_neg hq]
      exact hI.metaRunner q
  · intro q
    rw [hst, hprogR, hlook]
    by_cases hq : q = id
    · rw [if_pos hq, hI.progRunner q, hq, hr]
      rfl
    · rw [if_neg hq]
      exact hI.progRunner q
  · intro q r3 hqr
    rw [hlook] at hqr
    rw [hst, hmetaR]
    by_cases hq : q = id
    · rw [if_pos hq]
      refine ⟨objSet m "status" (J.s "finished"), rfl, ?_⟩
      rw [objSet_lookup_self]
      rfl
    · rw [if_neg hq]
      rw [if_neg hq] at hqr
      exact hI.metaWf q r3 hqr
  · intro q r3 hqr
    rw [hlook] at hqr
    rw [hst, hprogR]
    by_cases hq : q = id
    · rw [if_pos hq] at hqr
      obtain rfl : (⟨r.dur, RState.done⟩ : Runner) = r3 := by injection hqr
      subst hq
      obtain ⟨p, tot, hread, hpi⟩ := hI.progWf q r hr
      refine ⟨p, tot, hread, ?_⟩
      rw [progressInv, hrs] at hpi
      rw [progressInv]
      exact hpi
    · rw [if_neg hq] at hqr
      exact hI.progWf q r3 hqr
  · intro q r3 hqr hterm
    rw [hlook] at hqr
    rw [hst, hresR]
    by_cases hq : q = id
    · subst hq
      exact hI.resWf q r hr (Or.inl hrs)
    · rw [if_neg hq] at hqr
      exact hI.resWf q r3 hqr hterm

theorem sysInv_rstep {s : Sys} (hI : SysInv s) {id : String} {t : Int} {s2 : Sys}
    (h : runnerStep s id t = some s2) : SysInv s2 := by
  rw [runnerStep] at h
  split at h
  · cases h
  · rename_i r hr
    split at h
    · -- run i
      rename_i i hrs
      split at h
      · -- inside the loop
        rename_i hlt
        split at h
        · cases h
        · rename_i st hpoll
          split at h
          · obtain rfl : setR s id ⟨r.dur, RState.pauseWait i⟩ = s2 := by injection h
            refine sysInv_setR hI hr (fun p tot hp => ?_)
              (by rintro (h2 | h2) <;> cases h2)
            rw [progressInv, hrs] at hp
            rw [progressInv]
            exact ⟨hlt, hp.2⟩
          · obtain rfl : setR s id ⟨r.dur, RState.working i⟩ = s2 := by injection h
            refine sysInv_setR hI hr (fun p tot hp => ?_)
              (by rintro (h2 | h2) <;> cases h2)
            rw [progressInv, hrs] at hp
            rw [progressInv]
            exact ⟨hlt, hp.2⟩
      · -- loop finished: write the result
        obtain rfl : setR ⟨sqlWrite s.store (resultKey id)
            (J.obj [("status", J.s "finished"), ("completed_at", J.i t)]),
            s.runners, s.counters⟩ id ⟨r.dur, RState.finMeta⟩ = s2 := by injection h
        refine sysInv_writeResult hI hr _ _ (fun p tot hp => ?_)
        rw [progressInv, hrs] at hp
        rw [progressInv]
        exact ⟨i, hp.1, hp.2⟩
    · -- working i
      rename_i i hrs
      obtain rfl : setR ⟨sqlWrite s.store (progKey id)
          (J.obj [("step", J.i (i + 1)), ("total", J.i (nsteps r.dur))]), s.runners,
          bumpCounter s.counters "ops_heartbeat_total"⟩ id
          ⟨r.dur, RState.run (i + 1)⟩ = s2 := by injection h
      exact sysInv_working hI hr hrs _
    · -- pauseWait i
      rename_i i hrs
      split at h
      · cases h
      · rename_i st hpoll
        split at h
        · obtain rfl : setR s id ⟨r.dur, RState.working i⟩ = s2 := by injection h
          refine sysInv_setR hI hr (fun p tot hp => ?_)
            (by rintro (h2 | h2) <;> cases h2)
          rw [progressInv, hrs] at hp
          rw [progressInv]
          exact hp
        · split at h
          · obtain rfl : setR ⟨sqlWrite s.store (resultKey id)
                (J.obj [("status", J.s "cancelled")]), s.runners,
                bumpCounter s.counters "ops_cancelled_total"⟩ id
                ⟨r.dur, RState.done⟩ = s2 := by injection h
            refine sysInv_writeResult hI hr _ _ (fun p tot hp => ?_)
            rw [progressInv, hrs] at hp
            rw [progressInv]
            exact ⟨i, Nat.le_of_lt hp.1, hp.2⟩
          · obtain rfl : s = s2 := by injection h
            exact hI
    · -- finMeta
      rename_i hrs
      split at h
      · rename_i m hm
        cases h
        exact sysInv_finish hI hr hrs m _
      · cases h
    · -- done
      cases h

theorem sysInv_exec {e : Ev} {s s2 : Sys} (hI : SysInv s) (h : exec e s = some s2) :
    SysInv s2 := by
  cases e with
  | start id dur t md =>
    rw [exec] at h
    split at h
    · rename_i hc
      obtain rfl : start_operation s id dur t md = s2 := by injection h
      exact sysInv_start hI dur t md hc.1 hc.2
    · cases h
  | pause id =>
    rw [exec] at h
    cases hset : pause_operation s id with
    | none => rw [hset] at h; cases h
    | some p =>
      obtain ⟨b, s3⟩ := p
      rw [hset] at h
      obtain rfl : s3 = s2 := by injection h
      exact sysInv_setStatus hI hset
  | resume id =>
    rw [exec] at h
    cases hset : resume_operation s id with
    | none => rw [hset] at h; cases h
    | some p =>
      obtain ⟨b, s3⟩ := p
      rw [hset] at h
      obtain rfl : s3 = s2 := by injection h
      exact sysInv_setStatus hI hset
  | cancel id =>
    rw [exec] at h
    cases hset : cancel_operation s id with
    | none => rw [hset] at h; cases h
    | some p =>
      obtain ⟨b, s3⟩ := p
      rw [hset] at h
      obtain rfl : s3 = s2 := by injection h
      exact sysInv_setStatus hI hset
  | rstep id t =>
    exact sysInv_rstep hI h

theorem runEvs_inv : ∀ (evs : List Ev) (s s2 : Sys), SysInv s →
    runEvs evs s = some s2 → SysInv s2 := by
  intro evs
  induction evs with
  | nil =>
    intro s s2 hI h
    obtain rfl : s = s2 := by
      rw [runEvs] at h
      injection h
    exact hI
  | cons e es ih =>
    intro s s2 hI h
    rw [runEvs] at h
    split at h
    · cases h
    · rename_i s3 hs3
      exact ih s3 s2 (sysInv_exec hI hs3) h

/-- Every reachable state satisfies the invariant. -/
theorem reachable_sysInv {s : Sys} (h : Reachable s) : SysInv s := by
  obtain ⟨evs, hrun⟩ := h
  exact runEvs_inv evs initSys s sysInv_init hrun

/-! ## Branch evaluation lemmas -/

theorem dumps_inj {x y : J} (h : dumps x = dumps y) : x = y := by
  have hx := loads_dumps x
  rw [h, loads_dumps] at hx
  injection hx with h2
  exact h2.symm

theorem pollStatus_of_read {s : Sys} {id : String} {fields : List (String × J)}
    (hread : sread (metaKey id) s.store = some (dumps (J.obj fields))) :
    pollStatus s id = some (objGet fields "status") := by
  rw [pollStatus, sqlRead_of_sread hread]

/-- `pause`/`resume`/`cancel` on an operation whose stored metadata is a
nonempty object: overwrite `status`, return `True`. -/
theorem setStatusOp_found {s : Sys} {id : String} (new c : String)
    {fields : List (String × J)}
    (hread : sread (metaKey id) s.store = some (dumps (J.obj fields)))
    (hne : fields ≠ []) :
    setStatusOp s id new c = some (true,
      ⟨swrite (metaKey id) (dumps (J.obj (objSet fields "status" (J.s new)))) s.store,
        s.runners, bumpCounter s.counters c⟩) := by
  rw [setStatusOp, sqlReadOpt_of_sread hread]
  have htr : pyTruthy (J.obj fields) = true := by
    simp [pyTruthy, List.isEmpty_iff, hne]
  simp only [htr, if_true]
  rfl

/-- The runner's poll at the top of a loop iteration, when the status is
`paused`. -/
theorem runnerStep_run_paused {s : Sys} {id : String} {dur : Int} {i : Nat} (t : Int)
    {fields : List (String × J)}
    (hr : s.runners.lookup id = some ⟨dur, RState.run i⟩) (hi : i < nsteps dur)
    (hread : sread (metaKey id) s.store = some (dumps (J.obj fields)))
    (hst : objGet fields "status" = some (J.s "paused")) :
    runnerStep s id t = some (setR s id ⟨dur, RState.pauseWait i⟩) := by
  rw [runnerStep, hr]
  show (if i < nsteps dur then _ else _) = _
  rw [if_pos hi, pollStatus_of_read hread, hst]
  show (if isStrVal (some (J.s "paused")) "paused" = true then _ else _) = _
  rw [if_pos (by rfl)]

/-- The runner's poll at the top of a loop iteration, when the status is
anything other than `paused` (the loop body then runs). -/
theorem runnerStep_run_go {s : Sys} {id : String} {dur : Int} {i : Nat} (t : Int)
    {fields : List (String × J)}
    (hr : s.runners.lookup id = some ⟨dur, RState.run i⟩) (hi : i < nsteps dur)
    (hread : sread (metaKey id) s.store = some (dumps (J.obj fields)))
    (hst : isStrVal (objGet fields "status") "paused" = false) :
    runnerStep s id t = some (setR s id ⟨dur, RState.working i⟩) := by
  rw [runnerStep, hr]
  show (if i < nsteps dur then _ else _) = _
  rw [if_pos hi, pollStatus_of_read hread]
  show (if isStrVal (objGet fields "status") "paused" = true then _ else _) = _
  rw [hst]
  rfl

/-- The runner's work micro-step. -/
theorem runnerStep_working {s : Sys} {id : String} {dur : Int} {i : Nat} (t : Int)
    (hr : s.runners.lookup id = some ⟨dur, RState.working i⟩) :
    runnerStep s id t = some (setR
      ⟨swrite (progKey id) (dumps (J.obj [("step", J.i (i + 1)), ("total", J.i (nsteps dur))]))
        s.store, s.runners, bumpCounter s.counters "ops_heartbeat_total"⟩
      id ⟨dur, RState.run (i + 1)⟩) := by
  rw [runnerStep, hr]
  rfl

/-- The loop-exit micro-step: write the finished Result. -/
theorem runnerStep_run_exit {s : Sys} {id : String} {dur : Int} {i : Nat} (t : Int)
    (hr : s.runners.lookup id = some ⟨dur, RState.run i⟩) (hi : ¬i < nsteps dur) :
    runnerStep s id t = some (setR
      ⟨swrite (resultKey id)
        (dumps (J.obj [("status", J.s "finished"), ("completed_at", J.i t)])) s.store,
        s.runners, s.counters⟩ id ⟨dur, RState.finMeta⟩) := by
  rw [runnerStep, hr]
  show (if i < nsteps dur then _ else _) = _
  rw [if_neg hi]
  rfl

/-- The pause-wait poll, seeing `running`: resume work. -/
theorem runnerStep_wait_resume {s : Sys} {id : String} {dur : Int} {i : Nat} (t : Int)
    {fields : List (String × J)}
    (hr : s.runners.lookup id = some ⟨dur, RState.pauseWait i⟩)
    (hread : sread (metaKey id) s.store = some (dumps (J.obj fields)))
    (hst : objGet fields "status" = some (J.s "running")) :
    runnerStep s id t = some (setR s id ⟨dur, RState.working i⟩) := by
  rw [runnerStep, hr]
  show (match pollStatus s id with
    | none => none
    | some st =>
      if isStrVal st "running" = true then some (setR s id ⟨dur, RState.working i⟩)
      else if isStrVal st "cancelled" = true then _ else some s) = _
  rw [pollStatus_of_read hread, hst]
  show (if isStrVal (some (J.s "running")) "running" = true then _ else _) = _
  rw [if_pos (by rfl)]

/-- The pause-wait poll, seeing `cancelled`: write the cancellation
Result and return. -/
theorem runnerStep_wait_cancel {s : Sys} {id : String} {dur : Int} {i : Nat} (t : Int)
    {fields : List (String × J)}
    (hr : s.runners.lookup id = some ⟨dur, RState.pauseWait i⟩)
    (hread : sread (metaKey id) s.store = some (dumps (J.obj fields)))
    (hst : objGet fields "status" = some (J.s "cancelled")) :
    runnerStep s id t = some (setR
      ⟨swrite (resultKey id) (dumps (J.obj [("status", J.s "cancelled")])) s.store,
        s.runners, bumpCounter s.counters "ops_cancelled_total"⟩
      id ⟨dur, RState.done⟩) := by
  rw [runnerStep, hr]
  show (match pollStatus s id with
    | none => none
    | some st =>
      if isStrVal st "running" = true then some (setR s id ⟨dur, RState.working i⟩)
      else if isStrVal st "cancelled" = true then
        some (setR
          ⟨swrite (resultKey id) (dumps (J.obj [("status", J.s "cancelled")])) s.store,
            s.runners, bumpCounter s.counters "ops_cancelled_total"⟩
          id ⟨dur, RState.done⟩)
      else some s) = _
  rw [pollStatus_of_read hread, hst]
  show (if isStrVal (some (J.s "cancelled")) "running" = true then _
    else if isStrVal (some (J.s "cancelled")) "cancelled" = true then _ else some s) = _
  rw [if_neg (by decide), if_pos (by rfl)]

/-- The final micro-step: mark the metadata `finished` and return. -/
theorem runnerStep_finish {s : Sys} {id : String} {dur : Int} (t : Int)
    {fields : List (String × J)}
    (hr : s.runners.lookup id = some ⟨dur, RState.finMeta⟩)
    (hread : sread (metaKey id) s.store = some (dumps (J.obj fields))) :
    runnerStep s id t = some (setR
      ⟨swrite (metaKey id) (dumps (J.obj (objSet fields "status" (J.s "finished")))) s.store,
        s.runners, bumpCounter s.counters "ops_finished_total"⟩
      id ⟨dur, RState.done⟩) := by
  rw [runnerStep, hr]
  rw [show sqlRead s.store (metaKey id) (J.obj []) = J.obj fields from
    sqlRead_of_sread hread _]
  rfl

/-- A returned runner takes no further steps. -/
theorem runnerStep_done {s : Sys} {id : String} {dur : Int} (t : Int)
    (hr : s.runners.lookup id = some ⟨dur, RState.done⟩) :
    runnerStep s id t = none := by
  rw [runnerStep, hr]

theorem runEvs_cons (e : Ev) (es : List Ev) {s s3 : Sys} (h1 : exec e s = some s3) :
    runEvs (e :: es) s = runEvs es s3 := by
  rw [runEvs, h1]

/-! ## Observable-evaluation helpers -/

theorem objSet_ne_nil (m : List (String × J)) (k : String) (v : J) :
    objSet m k v ≠ [] := by
  cases m with
  | nil => simp [objSet]
  | cons kv rest =>
    rw [objSet]
    split <;> simp

theorem sqlReadOpt_congr {st1 st2 : List (String × String)} (k : String)
    (h : sread k st1 = sread k st2) : sqlReadOpt st1 k = sqlReadOpt st2 k := by
  rw [sqlReadOpt, h, sqlReadOpt]

theorem progOf_congr {s s2 : Sys} (id : String)
    (h : sread (progKey id) s2.store = sread (progKey id) s.store) :
    progOf s2 id = progOf s id := by
  rw [progOf, sqlReadOpt_congr _ h]
  rfl

theorem resultOf_congr {s s2 : Sys} (id : String)
    (h : sread (resultKey id) s2.store = sread (resultKey id) s.store) :
    resultOf s2 id = resultOf s id := by
  rw [resultOf, sqlReadOpt_congr _ h, resultOf]

theorem statusStr_congr {s s2 : Sys} (id : String)
    (h : sread (metaKey id) s2.store = sread (metaKey id) s.store) :
    statusStr s2 id = statusStr s id := by
  rw [statusStr, sqlReadOpt_congr _ h]
  rfl

theorem statusStr_of_sread {s : Sys} {id : String} {fields : List (String × J)}
    (h : sread (metaKey id) s.store = some (dumps (J.obj fields))) (st : String)
    (h2 : objGet fields "status" = some (J.s st)) : statusStr s id = some st := by
  rw [statusStr, sqlReadOpt_of_sread h]
  show (match objGet fields "status" with
    | some (J.s x) => some x
    | _ => none) = some st
  rw [h2]

theorem progOf_of_sread {s : Sys} {id : String} {p tot : Int}
    (h : sread (progKey id) s.store =
      some (dumps (J.obj [("step", J.i p), ("total", J.i tot)]))) :
    progOf s id = some (p, tot) := by
  rw [progOf, sqlReadOpt_of_sread h]
  rfl

theorem resultOf_of_sread {s : Sys} {id : String} {v : J}
    (h : sread (resultKey id) s.store = some (dumps v)) :
    resultOf s id = some v := by
  rw [resultOf, sqlReadOpt_of_sread h]

/-! ## Concrete scenario: one started operation -/

/-- The metadata written by `start_operation(duration=1, metadata=None)`
at clock 0. -/
def metaA : List (String × J) :=
  [("status", J.s "running"), ("duration", J.i 1), ("created_at", J.i 0)]

/-- A fresh system after one `start_operation("a", duration 1)` at
clock 0. -/
def sA : Sys := start_operation initSys "a" 1 0 []

theorem sA_reach : Reachable sA := ⟨[Ev.start "a" 1 0 []], rfl⟩

theorem sA_meta : sread (metaKey "a") sA.store = some (dumps (J.obj metaA)) := rfl

theorem statusStr_sA : statusStr sA "a" = some "running" :=
  statusStr_of_sread sA_meta "running" rfl

/-! ## Claim C8 -/

/-- C8: store round-trip.  `read(k, d)` after `write(k, v)` with no
intervening write to `k` returns `v` deserialized to its original shape
(field names and integer values intact), and `read` of an absent key
returns the supplied default. -/
theorem C8_store_roundtrip (st : List (String × String)) (k : String) (v d : J) :
    sqlRead (sqlWrite st k v) k d = v ∧
    (sread k st = none → sqlRead st k d = d) := by
  refine ⟨sqlRead_write_self st k v d, fun h => ?_⟩
  rw [sqlRead, h]

/-- C8 at a concrete store, key, object value and default. -/
theorem C8_store_roundtrip_witness :
    sqlRead (sqlWrite [] "k" (J.obj [("a", J.i 5)])) "k" (J.i 7) = J.obj [("a", J.i 5)] ∧
    sqlRead [] "k" (J.i 7) = J.i 7 :=
  ⟨(C8_store_roundtrip [] "k" (J.obj [("a", J.i 5)]) (J.i 7)).1,
   (C8_store_roundtrip [] "k" (J.obj [("a", J.i 5)]) (J.i 7)).2 rfl⟩

/-! ## Claim C6 -/

/-- C6: on an id with no stored metadata record, `pause_operation`,
`resume_operation` and `cancel_operation` each return `False` without
raising and leave the state untouched; on an id with a metadata record
(in any reachable state) each returns `True`. -/
theorem C6_not_found_false {s : Sys} (hs : Reachable s) (id : String) :
    (sread (metaKey id) s.store = none →
      pause_operation s id = some (false, s) ∧
      resume_operation s id = some (false, s) ∧
      cancel_operation s id = some (false, s)) ∧
    ((sread (metaKey id) s.store).isSome →
      (∃ s2, pause_operation s id = some (true, s2)) ∧
      (∃ s2, resume_operation s id = some (true, s2)) ∧
      (∃ s2, cancel_operation s id = some (true, s2))) := by
  have hI := reachable_sysInv hs
  constructor
  · intro h
    refine ⟨?_, ?_, ?_⟩
    · rw [pause_operation, setStatusOp, sqlReadOpt, h]
    · rw [resume_operation, setStatusOp, sqlReadOpt, h]
    · rw [cancel_operation, setStatusOp, sqlReadOpt, h]
  · intro h
    have hr : ∃ r, s.runners.lookup id = some r := by
      have h2 := hI.metaRunner id
      cases hl : s.runners.lookup id with
      | some r => exact ⟨r, rfl⟩
      | none =>
        rw [hl] at h2
        rw [h2] at h
        cases h
    obtain ⟨r, hr⟩ := hr
    obtain ⟨f1, _, _, h1⟩ := (setStatusOp_spec hI id "paused" "ops_paused_total").2 r hr
    obtain ⟨f2, _, _, h2⟩ := (setStatusOp_spec hI id "running" "ops_resumed_total").2 r hr
    obtain ⟨f3, _, _, h3⟩ :=
      (setStatusOp_spec hI id "cancelled" "ops_cancel_requested_total").2 r hr
    exact ⟨⟨_, h1⟩, ⟨_, h2⟩, ⟨_, h3⟩⟩

/-- C6 at the one-operation demo state: a missing id fails with `False`
and no state change, the started id succeeds for all three calls. -/
theorem C6_not_found_false_witness :
    (pause_operation sA "zz" = some (false, sA) ∧
     resume_operation sA "zz" = some (false, sA) ∧
     cancel_operation sA "zz" = some (false, sA)) ∧
    ((∃ s2, pause_operation sA "a" = some (true, s2)) ∧
     (∃ s2, resume_operation sA "a" = some (true, s2)) ∧
     (∃ s2, cancel_operation sA "a" = some (true, s2))) :=
  ⟨(C6_not_found_false sA_reach "zz").1 rfl,
   (C6_not_found_false sA_reach "a").2 rfl⟩

/-! ## Claims C7 and C10 -/

theorem fields_ne_nil_of_inv {s : Sys} (hI : SysInv s) {id : String}
    {fields : List (String × J)}
    (hread : sread (metaKey id) s.store = some (dumps (J.obj fields))) :
    fields ≠ [] := by
  have hr : ∃ r, s.runners.lookup id = some r := by
    have h2 := hI.metaRunner id
    rw [hread] at h2
    cases hl : s.runners.lookup id with
    | some r => exact ⟨r, rfl⟩
    | none =>
      rw [hl] at h2
      cases h2
  obtain ⟨r, hr⟩ := hr
  obtain ⟨m, hm, hst⟩ := hI.metaWf id r hr
  rw [hread] at hm
  injection hm with hm
  have hmf : J.obj m = J.obj fields := dumps_inj hm.symm
  injection hmf with hmf
  subst hmf
  intro hemp
  subst hemp
  simp [List.lookup] at hst

theorem setStatus_frame {s : Sys} (hI : SysInv s) {id : String}
    {fields : List (String × J)}
    (hread : sread (metaKey id) s.store = some (dumps (J.obj fields)))
    (new c : String) :
    ∃ s2, setStatusOp s id new c = some (true, s2) ∧
      sread (metaKey id) s2.store =
        some (dumps (J.obj (objSet fields "status" (J.s new)))) ∧
      (∀ k, k ≠ metaKey id → sread k s2.store = sread k s.store) ∧
      progOf s2 id = progOf s id ∧ resultOf s2 id = resultOf s id := by
  have hne := fields_ne_nil_of_inv hI hread
  refine ⟨_, setStatusOp_found new c hread hne, sread_swrite_self _ _ _, ?_, ?_, ?_⟩
  · intro k hk
    exact sread_swrite_ne (Ne.symm hk) _ _
  · exact progOf_congr id (sread_swrite_ne (metaKey_ne_progKey id id) _ _)
  · exact resultOf_congr id (sread_swrite_ne (metaKey_ne_resultKey id id) _ _)

/-- C10: on an existing operation, `pause_operation`, `resume_operation`
and `cancel_operation` overwrite only the metadata `status` field —
every other metadata field is preserved — and do not write the
operation's progress or result records. -/
theorem C10_status_only_frame {s : Sys} (hs : Reachable s) (id : String)
    {fields : List (String × J)}
    (hread : sread (metaKey id) s.store = some (dumps (J.obj fields))) :
    (∀ new k, k ≠ "status" → objGet (objSet fields "status" (J.s new)) k = objGet fields k) ∧
    (∃ s2, pause_operation s id = some (true, s2) ∧
      sread (metaKey id) s2.store =
        some (dumps (J.obj (objSet fields "status" (J.s "paused")))) ∧
      (∀ k, k ≠ metaKey id → sread k s2.store = sread k s.store) ∧
      progOf s2 id = progOf s id ∧ resultOf s2 id = resultOf s id) ∧
    (∃ s2, resume_operation s id = some (true, s2) ∧
      sread (metaKey id) s2.store =
        some (dumps (J.obj (objSet fields "status" (J.s "running")))) ∧
      (∀ k, k ≠ metaKey id → sread k s2.store = sread k s.store) ∧
      progOf s2 id = progOf s id ∧ resultOf s2 id = resultOf s id) ∧
    (∃ s2, cancel_operation s id = some (true, s2) ∧
      sread (metaKey id) s2.store =
        some (dumps (J.obj (objSet fields "status" (J.s "cancelled")))) ∧
      (∀ k, k ≠ metaKey id → sread k s2.store = sread k s.store) ∧
      progOf s2 id = progOf s id ∧ resultOf s2 id = resultOf s id) := by
  have hI := reachable_sysInv hs
  refine ⟨fun new k hk => objSet_lookup_ne (Ne.symm hk) fields (J.s new), ?_, ?_, ?_⟩
  · exact setStatus_frame hI hread "paused" "ops_paused_total"
  · exact setStatus_frame hI hread "running" "ops_resumed_total"
  · exact setStatus_frame hI hread "cancelled" "ops_cancel_requested_total"

/-- C10 at the one-operation demo state. -/
theorem C10_status_only_frame_witness :
    (∀ new k, k ≠ "status" → objGet (objSet metaA "status" (J.s new)) k = objGet metaA k) ∧
    (∃ s2, pause_operation sA "a" = some (true, s2) ∧
      sread (metaKey "a") s2.store =
        some (dumps (J.obj (objSet metaA "status" (J.s "paused")))) ∧
      (∀ k, k ≠ metaKey "a" → sread k s2.store = sread k sA.store) ∧
      progOf s2 "a" = progOf sA "a" ∧ resultOf s2 "a" = resultOf sA "a") ∧
    (∃ s2, resume_operation sA "a" = some (true, s2) ∧
      sread (metaKey "a") s2.store =
        some (dumps (J.obj (objSet metaA "status" (J.s "running")))) ∧
      (∀ k, k ≠ metaKey "a" → sread k s2.store = sread k sA.store) ∧
      progOf s2 "a" = progOf sA "a" ∧ resultOf s2 "a" = resultOf sA "a") ∧
    (∃ s2, cancel_operation sA "a" = some (true, s2) ∧
      sread (metaKey "a") s2.store =
        some (dumps (J.obj (objSet metaA "status" (J.s "cancelled")))) ∧
      (∀ k, k ≠ metaKey "a" → sread k s2.store = sread k sA.store) ∧
      progOf s2 "a" = progOf sA "a" ∧ resultOf s2 "a" = resultOf sA "a") :=
  C10_status_only_frame sA_reach "a" sA_meta

/-- C7: `pause` is idempotent on the stored metadata (both calls
succeed, the second leaves the record as the first wrote it), and
`resume` on an operation whose status is already `running` succeeds and
leaves its metadata record unchanged. -/
theorem C7_pause_resume_idempotent {s : Sys} (hs : Reachable s) (id : String)
    {fields : List (String × J)}
    (hread : sread (metaKey id) s.store = some (dumps (J.obj fields))) :
    (∃ s1 s2, pause_operation s id = some (true, s1) ∧
      pause_operation s1 id = some (true, s2) ∧
      sread (metaKey id) s1.store =
        some (dumps (J.obj (objSet fields "status" (J.s "paused")))) ∧
      sread (metaKey id) s2.store = sread (metaKey id) s1.store) ∧
    (objGet fields "status" = some (J.s "running") →
      ∃ s3, resume_operation s id = some (true, s3) ∧
        sread (metaKey id) s3.store = sread (metaKey id) s.store) := by
  have hI := reachable_sysInv hs
  have hne := fields_ne_nil_of_inv hI hread
  constructor
  · refine ⟨_, _, setStatusOp_found "paused" "ops_paused_total" hread hne,
      setStatusOp_found "paused" "ops_paused_total" (sread_swrite_self _ _ _)
        (objSet_ne_nil _ _ _), sread_swrite_self _ _ _, ?_⟩
    rw [sread_swrite_self, sread_swrite_self,
      objSet_id (objSet_lookup_self fields "status" (J.s "paused"))]
  · intro hrun
    refine ⟨_, setStatusOp_found "running" "ops_resumed_total" hread hne, ?_⟩
    rw [sread_swrite_self, objSet_id hrun, hread]

/-- C7 at the one-operation demo state (status `running`). -/
theorem C7_pause_resume_idempotent_witness :
    (∃ s1 s2, pause_operation sA "a" = some (true, s1) ∧
      pause_operation s1 "a" = some (true, s2) ∧
      sread (metaKey "a") s1.store =
        some (dumps (J.obj (objSet metaA "status" (J.s "paused")))) ∧
      sread (metaKey "a") s2.store = sread (metaKey "a") s1.store) ∧
    (∃ s3, resume_operation sA "a" = some (true, s3) ∧
      sread (metaKey "a") s3.store = sread (metaKey "a") sA.store) :=
  ⟨(C7_pause_resume_idempotent sA_reach "a" sA_meta).1,
   (C7_pause_resume_idempotent sA_reach "a" sA_meta).2 rfl⟩

/-! ## Concrete scenario: duration 0 -/

/-- After `start_operation("a", duration 0)` at clock 5 and the runner's
first poll (status `running`, so it proceeds to work). -/
def sE0 : Sys := start_operation initSys "a" 0 5 []

def metaE : List (String × J) :=
  [("status", J.s "running"), ("duration", J.i 0), ("created_at", J.i 5)]

def sE1 : Sys := setR sE0 "a" ⟨0, RState.working 0⟩

/-- After the runner's first heartbeat: it writes
`{"step": 1, "total": max(1, duration)}`, rewriting total from 0 to 1. -/
def sE2 : Sys :=
  ⟨swrite (progKey "a") (dumps (J.obj [("step", J.i 1), ("total", J.i 1)])) sE1.store,
    alistSet sE1.runners "a" ⟨0, RState.run 1⟩,
    bumpCounter sE1.counters "ops_heartbeat_total"⟩

theorem sE1_exec : exec (Ev.rstep "a" 9) sE0 = some sE1 :=
  @runnerStep_run_go sE0 "a" 0 0 9 metaE rfl (by decide) rfl (by decide)

theorem sE2_exec : exec (Ev.rstep "a" 9) sE1 = some sE2 :=
  @runnerStep_working sE1 "a" 0 0 9 rfl

theorem sE1_reach : Reachable sE1 :=
  ⟨[Ev.start "a" 0 5 [], Ev.rstep "a" 9], by
    rw [runEvs_cons _ _ (show exec (Ev.start "a" 0 5 []) initSys = some sE0 from rfl),
      runEvs_cons _ _ sE1_exec, runEvs]⟩

/-! ## Claim C5 -/

/-- C5 fails: with duration 0 the progress written at creation is
`{step 0, total 0}`, but the runner's first heartbeat rewrites the
record to `{step 1, total 1}` — `total` becomes `max(1, duration)`,
which differs from the duration when it is ≤ 0. -/
theorem C5_counterexample :
    Reachable sE1 ∧
    sE1.runners.lookup "a" = some ⟨0, RState.working 0⟩ ∧
    progOf sE1 "a" = some (0, 0) ∧
    SysStep sE1 sE2 ∧
    progOf sE2 "a" = some (1, 1) :=
  ⟨sE1_reach, rfl, progOf_of_sread rfl, ⟨Ev.rstep "a" 9, sE2_exec⟩, progOf_of_sread rfl⟩

theorem progressInv_bounds {r : Runner} {p tot : Int} (hpi : progressInv r p tot) :
    0 ≤ p ∧ (p ≤ tot ∨ (p = 0 ∧ tot < 0)) ∧
    (tot = r.dur ∨ tot = ((nsteps r.dur : Nat) : Int)) := by
  obtain ⟨dur, rs⟩ := r
  have hp : ∃ i, i ≤ nsteps dur ∧ pAt dur i p tot := by
    cases rs with
    | run i => exact ⟨i, hpi.1, hpi.2⟩
    | working i => exact ⟨i, le_of_lt hpi.1, hpi.2⟩
    | pauseWait i => exact ⟨i, le_of_lt hpi.1, hpi.2⟩
    | finMeta => exact hpi
    | done => exact hpi
  obtain ⟨i, hile, hp⟩ := hp
  obtain ⟨hi0, hp0, htot⟩ | ⟨hi1, hpi2, htot⟩ := hp
  · subst hp0
    refine ⟨le_refl 0, ?_, Or.inl htot⟩
    rcases lt_or_le tot 0 with hd | hd
    · exact Or.inr ⟨rfl, hd⟩
    · exact Or.inl hd
  · subst hpi2
    subst htot
    refine ⟨Int.natCast_nonneg i, Or.inl ?_, Or.inr rfl⟩
    exact_mod_cast hile

/-- C5 amended: for every live operation, the stored total is either the
original duration (before the first heartbeat) or `max 1 duration`
(after it); when the duration is ≥ 1 the two coincide, so total then
always equals the duration. -/
theorem C5_total_after_start {s : Sys} (hs : Reachable s) (id : String) {r : Runner}
    (hr : s.runners.lookup id = some r) :
    ∃ p tot, progOf s id = some (p, tot) ∧
      (tot = r.dur ∨ tot = ((nsteps r.dur : Nat) : Int)) ∧
      (1 ≤ r.dur → tot = r.dur) := by
  have hI := reachable_sysInv hs
  obtain ⟨p, tot, hpr, hpi⟩ := hI.progWf id r hr
  obtain ⟨-, -, htot⟩ := progressInv_bounds hpi
  refine ⟨p, tot, progOf_of_sread hpr, htot, fun hd => ?_⟩
  rcases htot with h | h
  · exact h
  · rw [h, nsteps, max_eq_right hd, Int.toNat_of_nonneg (le_trans zero_le_one hd)]

/-- C5 amended, at the one-operation demo state (duration 1). -/
theorem C5_total_after_start_witness :
    ∃ p tot, progOf sA "a" = some (p, tot) ∧
      (tot = 1 ∨ tot = ((nsteps 1 : Nat) : Int)) ∧ ((1 : Int) ≤ 1 → tot = 1) :=
  C5_total_after_start sA_reach "a" rfl

/-! ## Claim C3: counterexample -/

/-- `start_operation("a", duration -1)`: the creation write itself
stores `{step 0, total -1}`. -/
def sF : Sys := start_operation initSys "a" (-1) 0 []

/-- C3 fails: a started operation can hold a stored Progress record with
step > total (duration −1 stores `{step 0, total −1}` at creation). -/
theorem C3_counterexample :
    Reachable sF ∧ progOf sF "a" = some (0, -1) ∧ ¬(0 : Int) ≤ -1 :=
  ⟨⟨[Ev.start "a" (-1) 0 []], rfl⟩, progOf_of_sread rfl, by decide⟩

/-! ## Store-effect case analysis -/

theorem progOf_isSome_sread {s : Sys} {id : String} {x : Int × Int}
    (h : progOf s id = some x) : (sread (progKey id) s.store).isSome := by
  rw [← sqlReadOpt_isSome]
  rw [progOf] at h
  cases hq : sqlReadOpt s.store (progKey id) with
  | none =>
    rw [hq] at h
    exact Option.noConfusion h
  | some m => rfl

/-- The store effect of `pause`/`resume`/`cancel`: either nothing, or
one write to the target's metadata key. -/
theorem setStatusOp_store_cases {s : Sys} {id new c : String} {b : Bool} {s2 : Sys}
    (h : setStatusOp s id new c = some (b, s2)) :
    s2.store = s.store ∨ ∃ fields, s2.store =
      swrite (metaKey id) (dumps (J.obj (objSet fields "status" (J.s new)))) s.store := by
  rw [setStatusOp] at h
  split at h
  · injection h with h
    have hs2 : s = s2 := congrArg Prod.snd h
    exact Or.inl (by rw [← hs2])
  · rename_i m hm
    split at h
    · split at h
      · rename_i fields htr
        injection h with h
        have hs2 : _ = s2 := congrArg Prod.snd h
        exact Or.inr ⟨fields, by
          rw [← hs2]
          rfl⟩
      · exact Option.noConfusion h
    · injection h with h
      have hs2 : s = s2 := congrArg Prod.snd h
      exact Or.inl (by rw [← hs2])

/-- The store effect of one runner micro-step: nothing (polls and state
moves), a metadata write, a result write, or — only from the `working`
phase — the heartbeat progress write with step `i+1` and total
`max 1 duration`. -/
theorem runnerStep_store_cases {s : Sys} {id : String} {t : Int} {s2 : Sys}
    (h : runnerStep s id t = some s2) :
    s2.store = s.store ∨
    (∃ m, s2.store =
      swrite (metaKey id) (dumps (J.obj (objSet m "status" (J.s "finished")))) s.store) ∨
    (∃ x, s2.store = swrite (resultKey id) x s.store) ∨
    (∃ dur i, s.runners.lookup id = some ⟨dur, RState.working i⟩ ∧
      s2.store = swrite (progKey id)
        (dumps (J.obj [("step", J.i (i + 1)), ("total", J.i (nsteps dur))])) s.store) := by
  rw [runnerStep] at h
  split at h
  · exact Option.noConfusion h
  · rename_i r hr
    split at h
    · rename_i i hrs
      split at h
      · split at h
        · exact Option.noConfusion h
        · split at h
          · injection h with h
            exact Or.inl (by rw [← h]; rfl)
          · injection h with h
            exact Or.inl (by rw [← h]; rfl)
      · injection h with h
        exact Or.inr (Or.inr (Or.inl ⟨_, by rw [← h]; rfl⟩))
    · rename_i i hrs
      injection h with h
      refine Or.inr (Or.inr (Or.inr ⟨r.dur, i, ?_, by rw [← h]; rfl⟩))
      rw [hr]
      obtain ⟨d0, rs0⟩ := r
      rw [show (⟨d0, rs0⟩ : Runner).rs = rs0 from rfl] at hrs
      rw [hrs]
    · rename_i i hrs
      split at h
      · exact Option.noConfusion h
      · split at h
        · injection h with h
          exact Or.inl (by rw [← h]; rfl)
        · split at h
          · injection h with h
            exact Or.inr (Or.inr (Or.inl ⟨_, by rw [← h]; rfl⟩))
          · injection h with h
            exact Or.inl (by rw [← h])
    · rename_i hrs
      split at h
      · rename_i m hm
        injection h with h
        exact Or.inr (Or.inl ⟨m, by rw [← h]; rfl⟩)
      · exact Option.noConfusion h
    · exact Option.noConfusion h

theorem start_store (s : Sys) (id : String) (dur t : Int)
    (md : List (String × J)) :
    (start_operation s id dur t md).store =
    swrite (progKey id) (dumps (J.obj [("step", J.i 0), ("total", J.i dur)]))
      (swrite (metaKey id)
        (dumps (J.obj (dictUpdate
          [("status", J.s "running"), ("duration", J.i dur), ("created_at", J.i t)]
          md)))
        s.store) := rfl

theorem progOf_eq_of_frame {s s2 : Sys} {id : String} {p tot p2 tot2 : Int}
    (h1 : progOf s id = some (p, tot)) (h2 : progOf s2 id = some (p2, tot2))
    (hst : sread (progKey id) s2.store = sread (progKey id) s.store) :
    p2 = p ∧ tot2 = tot := by
  have hq := progOf_congr id hst
  rw [h1, h2] at hq
  injection hq with hq
  exact ⟨(congrArg Prod.fst hq : p2 = p), (congrArg Prod.snd hq : tot2 = tot)⟩

/-- C3 amended: the stored progress step is non-decreasing along every
system step, is never negative, and is bounded by the stored total
except in the creation state of an operation started with a negative
duration (step 0, total = duration < 0).  The claim's third part —
step advances only while the status is `running` — fails with the same
mechanism as C1: the work loop ignores a `cancelled` status. -/
theorem C3_progress_monotone {s s2 : Sys} (hs : Reachable s) (hstep : SysStep s s2)
    (id : String) {p tot p2 tot2 : Int}
    (h1 : progOf s id = some (p, tot)) (h2 : progOf s2 id = some (p2, tot2)) :
    p ≤ p2 ∧ 0 ≤ p ∧ (p ≤ tot ∨ (p = 0 ∧ tot < 0)) := by
  have hI := reachable_sysInv hs
  have hrex : ∃ r, s.runners.lookup id = some r := by
    have hq := hI.progRunner id
    rw [progOf_isSome_sread h1] at hq
    cases hl : s.runners.lookup id with
    | some r => exact ⟨r, rfl⟩
    | none =>
      rw [hl] at hq
      cases hq
  obtain ⟨r, hr⟩ := hrex
  obtain ⟨p', tot', hpr, hpi⟩ := hI.progWf id r hr
  have hpp := progOf_eq_of_frame (progOf_of_sread hpr) h1 rfl
  rw [← hpp.1, ← hpp.2] at hpi
  obtain ⟨h0p, hbnd, -⟩ := progressInv_bounds hpi
  refine ⟨?_, h0p, hbnd⟩
  obtain ⟨e, he⟩ := hstep
  cases e with
  | start id2 d2 t2 md2 =>
    rw [exec] at he
    split at he
    · rename_i hcond
      injection he with he
      have hne : id2 ≠ id := by
        intro hq
        rw [← hq] at hr
        rw [hcond.2] at hr
        exact Option.noConfusion hr
      have hst : sread (progKey id) s2.store = sread (progKey id) s.store := by
        rw [← he, start_store,
          sread_swrite_ne (fun hq => hne (progKey_inj hq)),
          sread_swrite_ne (metaKey_ne_progKey id2 id)]
      rw [(progOf_eq_of_frame h1 h2 hst).1]
    · exact Option.noConfusion he
  | pause id2 =>
    rw [exec] at he
    cases hp : pause_operation s id2 with
    | none =>
      rw [hp] at he
      exact Option.noConfusion he
    | some bs =>
      rw [hp] at he
      obtain ⟨b, s3⟩ := bs
      have he2 : s3 = s2 := by
        injection he
      subst he2
      obtain hc | ⟨x, hc⟩ := setStatusOp_store_cases hp
      · rw [(progOf_eq_of_frame h1 h2 (by rw [hc])).1]
      · rw [(progOf_eq_of_frame h1 h2 (by
          rw [hc, sread_swrite_ne (metaKey_ne_progKey id2 id)])).1]
  | resume id2 =>
    rw [exec] at he
    cases hp : resume_operation s id2 with
    | none =>
      rw [hp] at he
      exact Option.noConfusion he
    | some bs =>
      rw [hp] at he
      obtain ⟨b, s3⟩ := bs
      have he2 : s3 = s2 := by
        injection he
      subst he2
      obtain hc | ⟨x, hc⟩ := setStatusOp_store_cases hp
      · rw [(progOf_eq_of_frame h1 h2 (by rw [hc])).1]
      · rw [(progOf_eq_of_frame h1 h2 (by
          rw [hc, sread_swrite_ne (metaKey_ne_progKey id2 id)])).1]
  | cancel id2 =>
    rw [exec] at he
    cases hp : cancel_operation s id2 with
    | none =>
      rw [hp] at he
      exact Option.noConfusion he
    | some bs =>
      rw [hp] at he
      obtain ⟨b, s3⟩ := bs
      have he2 : s3 = s2 := by
        injection he
      subst he2
      obtain hc | ⟨x, hc⟩ := setStatusOp_store_cases hp
      · rw [(progOf_eq_of_frame h1 h2 (by rw [hc])).1]
      · rw [(progOf_eq_of_frame h1 h2 (by
          rw [hc, sread_swrite_ne (metaKey_ne_progKey id2 id)])).1]
  | rstep id2 t2 =>
    rw [exec] at he
    obtain hc | ⟨x, hc⟩ | ⟨x, hc⟩ | ⟨dur, i, hw, hc⟩ := runnerStep_store_cases he
    · rw [(progOf_eq_of_frame h1 h2 (by rw [hc])).1]
    · rw [(progOf_eq_of_frame h1 h2 (by
        rw [hc, sread_swrite_ne (metaKey_ne_progKey id2 id)])).1]
    · rw [(progOf_eq_of_frame h1 h2 (by
        rw [hc, sread_swrite_ne (Ne.symm (progKey_ne_resultKey id id2))])).1]
    · by_cases hid : id2 = id
      · subst hid
        rw [hr] at hw
        injection hw with hw
        subst hw
        have hple : p ≤ (i : Int) := by
          obtain ⟨-, hp0, -⟩ | ⟨-, hpi2, -⟩ := hpi.2
          · rw [hp0]
            exact Int.natCast_nonneg i
          · rw [hpi2]
        have hp2 : progOf s2 id2 = some (((i + 1 : Nat) : Int), ((nsteps dur : Nat) : Int)) :=
          progOf_of_sread (by rw [hc]; exact sread_swrite_self _ _ _)
        rw [h2] at hp2
        injection hp2 with hp2
        have hpfst : p2 = ((i + 1 : Nat) : Int) := congrArg Prod.fst hp2
        omega
      · rw [(progOf_eq_of_frame h1 h2 (by
          rw [hc, sread_swrite_ne (fun hq => hid (progKey_inj hq))])).1]

/-- C3 amended, at the duration-0 heartbeat step (progress (0,0) to
(1,1)). -/
theorem C3_progress_monotone_witness :
    (0 : Int) ≤ 1 ∧ (0 : Int) ≤ 0 ∧ ((0 : Int) ≤ 0 ∨ ((0 : Int) = 0 ∧ (0 : Int) < 0)) :=
  C3_progress_monotone sE1_reach ⟨Ev.rstep "a" 9, sE2_exec⟩ "a"
    (progOf_of_sread rfl) (progOf_of_sread rfl)

/-! ## Concrete scenario: a full run of duration 1 -/

def sB1 : Sys := setR sA "a" ⟨1, RState.working 0⟩

def sB2 : Sys :=
  ⟨swrite (progKey "a") (dumps (J.obj [("step", J.i 1), ("total", J.i 1)])) sB1.store,
    alistSet sB1.runners "a" ⟨1, RState.run 1⟩,
    bumpCounter sB1.counters "ops_heartbeat_total"⟩

def sB3 : Sys :=
  ⟨swrite (resultKey "a")
      (dumps (J.obj [("status", J.s "finished"), ("completed_at", J.i 2)])) sB2.store,
    alistSet sB2.runners "a" ⟨1, RState.finMeta⟩,
    sB2.counters⟩

def sB4 : Sys :=
  ⟨swrite (metaKey "a") (dumps (J.obj (objSet metaA "status" (J.s "finished")))) sB3.store,
    alistSet sB3.runners "a" ⟨1, RState.done⟩,
    bumpCounter sB3.counters "ops_finished_total"⟩

theorem sB1_exec : exec (Ev.rstep "a" 2) sA = some sB1 :=
  @runnerStep_run_go sA "a" 1 0 2 metaA rfl (by decide) rfl (by decide)

theorem sB2_exec : exec (Ev.rstep "a" 2) sB1 = some sB2 :=
  @runnerStep_working sB1 "a" 1 0 2 rfl

theorem sB3_exec : exec (Ev.rstep "a" 2) sB2 = some sB3 :=
  @runnerStep_run_exit sB2 "a" 1 1 2 rfl (by decide)

theorem sB4_exec : exec (Ev.rstep "a" 2) sB3 = some sB4 :=
  @runnerStep_finish sB3 "a" 1 2 metaA rfl rfl

theorem sB4_reach : Reachable sB4 :=
  ⟨[Ev.start "a" 1 0 [], Ev.rstep "a" 2, Ev.rstep "a" 2, Ev.rstep "a" 2, Ev.rstep "a" 2],
    by
      rw [runEvs_cons _ _ (show exec (Ev.start "a" 1 0 []) initSys = some sA from rfl),
        runEvs_cons _ _ sB1_exec, runEvs_cons _ _ sB2_exec, runEvs_cons _ _ sB3_exec,
        runEvs_cons _ _ sB4_exec, runEvs]⟩

theorem sB4_meta : sread (metaKey "a") sB4.store =
    some (dumps (J.obj (objSet metaA "status" (J.s "finished")))) := rfl

/-! ## Claim C2 -/

/-- C2 fails: `finished` is not terminal.  An operation that ran to
completion (metadata status `finished`) is still moved to `cancelled`
by a later `cancel_operation`, which reports success. -/
theorem C2_counterexample :
    Reachable sB4 ∧ statusStr sB4 "a" = some "finished" ∧
    ∃ s2, cancel_operation sB4 "a" = some (true, s2) ∧
      statusStr s2 "a" = some "cancelled" :=
  ⟨sB4_reach, statusStr_of_sread sB4_meta "finished" rfl,
    ⟨_, setStatusOp_found "cancelled" "ops_cancel_requested_total" sB4_meta
        (objSet_ne_nil _ _ _),
      statusStr_of_sread (sread_swrite_self _ _ _) "cancelled"
        (objSet_lookup_self _ "status" (J.s "cancelled"))⟩⟩

/-- C2 amended: any event other than a `start` either leaves an
operation's metadata status unchanged or sets it to one of the four
lifecycle statuses `paused`, `running`, `cancelled`, `finished`.  (The
claimed monotone/terminal transition discipline itself is refuted:
there is no terminal-state guard in any of the status writers.) -/
theorem C2_status_values {s s2 : Sys} {e : Ev} (id : String)
    (hns : ∀ i d t md, e ≠ Ev.start i d t md)
    (he : exec e s = some s2)
    (hch : statusStr s2 id ≠ statusStr s id) :
    statusStr s2 id = some "paused" ∨ statusStr s2 id = some "running" ∨
    statusStr s2 id = some "cancelled" ∨ statusStr s2 id = some "finished" := by
  cases e with
  | start i d t md => exact absurd rfl (hns i d t md)
  | pause id2 =>
    rw [exec] at he
    cases hp : pause_operation s id2 with
    | none =>
      rw [hp] at he
      exact Option.noConfusion he
    | some bs =>
      rw [hp] at he
      obtain ⟨b, s3⟩ := bs
      have he2 : s3 = s2 := by
        injection he
      subst he2
      obtain hc | ⟨fields, hc⟩ := setStatusOp_store_cases hp
      · exact absurd (statusStr_congr id (by rw [hc])) hch
      · by_cases hid : id2 = id
        · subst hid
          exact Or.inl (statusStr_of_sread (by rw [hc]; exact sread_swrite_self _ _ _)
            "paused" (objSet_lookup_self fields "status" (J.s "paused")))
        · exact absurd (statusStr_congr id (by
            rw [hc, sread_swrite_ne (fun hq => hid (metaKey_inj hq))])) hch
  | resume id2 =>
    rw [exec] at he
    cases hp : resume_operation s id2 with
    | none =>
      rw [hp] at he
      exact Option.noConfusion he
    | some bs =>
      rw [hp] at he
      obtain ⟨b, s3⟩ := bs
      have he2 : s3 = s2 := by
        injection he
      subst he2
      obtain hc | ⟨fields, hc⟩ := setStatusOp_store_cases hp
      · exact absurd (statusStr_congr id (by rw [hc])) hch
      · by_cases hid : id2 = id
        · subst hid
          exact Or.inr (Or.inl (statusStr_of_sread
            (by rw [hc]; exact sread_swrite_self _ _ _)
            "running" (objSet_lookup_self fields "status" (J.s "running"))))
        · exact absurd (statusStr_congr id (by
            rw [hc, sread_swrite_ne (fun hq => hid (metaKey_inj hq))])) hch
  | cancel id2 =>
    rw [exec] at he
    cases hp : cancel_operation s id2 with
    | none =>
      rw [hp] at he
      exact Option.noConfusion he
    | some bs =>
      rw [hp] at he
      obtain ⟨b, s3⟩ := bs
      have he2 : s3 = s2 := by
        injection he
      subst he2
      obtain hc | ⟨fields, hc⟩ := setStatusOp_store_cases hp
      · exact absurd (statusStr_congr id (by rw [hc])) hch
      · by_cases hid : id2 = id
        · subst hid
          exact Or.inr (Or.inr (Or.inl (statusStr_of_sread
            (by rw [hc]; exact sread_swrite_self _ _ _)
            "cancelled" (objSet_lookup_self fields "status" (J.s "cancelled")))))
        · exact absurd (statusStr_congr id (by
            rw [hc, sread_swrite_ne (fun hq => hid (metaKey_inj hq))])) hch
  | rstep id2 t2 =>
    rw [exec] at he
    obtain hc | ⟨m, hc⟩ | ⟨x, hc⟩ | ⟨dur, i, hw, hc⟩ := runnerStep_store_cases he
    · exact absurd (statusStr_congr id (by rw [hc])) hch
    · by_cases hid : id2 = id
      · subst hid
        exact Or.inr (Or.inr (Or.inr (statusStr_of_sread
          (by rw [hc]; exact sread_swrite_self _ _ _)
          "finished" (objSet_lookup_self m "status" (J.s "finished")))))
      · exact absurd (statusStr_congr id (by
          rw [hc, sread_swrite_ne (fun hq => hid (metaKey_inj hq))])) hch
    · exact absurd (statusStr_congr id (by
        rw [hc, sread_swrite_ne (Ne.symm (metaKey_ne_resultKey id id2))])) hch
    · exact absurd (statusStr_congr id (by
        rw [hc, sread_swrite_ne (Ne.symm (metaKey_ne_progKey id id2))])) hch

/-! witness scenario: pausing the demo operation -/

def sP : Sys :=
  ⟨swrite (metaKey "a") (dumps (J.obj (objSet metaA "status" (J.s "paused")))) sA.store,
    sA.runners, bumpCounter sA.counters "ops_paused_total"⟩

theorem sP_exec : exec (Ev.pause "a") sA = some sP := by
  rw [exec, show pause_operation sA "a" = some (true, sP) from
    setStatusOp_found "paused" "ops_paused_total" sA_meta (List.cons_ne_nil _ _)]
  rfl

theorem statusStr_sP : statusStr sP "a" = some "paused" :=
  statusStr_of_sread (sread_swrite_self _ _ _) "paused"
    (objSet_lookup_self metaA "status" (J.s "paused"))

/-- C2 amended, at the pause of the demo operation (running to paused). -/
theorem C2_status_values_witness :
    statusStr sP "a" = some "paused" ∨ statusStr sP "a" = some "running" ∨
    statusStr sP "a" = some "cancelled" ∨ statusStr sP "a" = some "finished" :=
  C2_status_values "a" (fun i d t md h => Ev.noConfusion h) sP_exec
    (by rw [statusStr_sP, statusStr_sA]; decide)

/-! ## Claim C4 -/

/-- Cancelling the demo operation right after start. -/
def sD1 : Sys :=
  ⟨swrite (metaKey "a") (dumps (J.obj (objSet metaA "status" (J.s "cancelled")))) sA.store,
    sA.runners, bumpCounter sA.counters "ops_cancel_requested_total"⟩

theorem sD1_exec : exec (Ev.cancel "a") sA = some sD1 := by
  rw [exec, show cancel_operation sA "a" = some (true, sD1) from
    setStatusOp_found "cancelled" "ops_cancel_requested_total" sA_meta
      (List.cons_ne_nil _ _)]
  rfl

theorem sD1_reach : Reachable sD1 :=
  ⟨[Ev.start "a" 1 0 [], Ev.cancel "a"], by
    rw [runEvs_cons _ _ (show exec (Ev.start "a" 1 0 []) initSys = some sA from rfl),
      runEvs_cons _ _ sD1_exec, runEvs]⟩

/-- C4 fails: after `cancel_operation` the status is `cancelled` but no
Result record exists (the Result is only written later, by the runner,
and only if the runner happens to pass through the pause-wait loop). -/
theorem C4_counterexample :
    Reachable sD1 ∧ statusStr sD1 "a" = some "cancelled" ∧ resultOf sD1 "a" = none :=
  ⟨sD1_reach, statusStr_of_sread (sread_swrite_self _ _ _) "cancelled"
    (objSet_lookup_self metaA "status" (J.s "cancelled")), rfl⟩

/-- C4 amended: the direction that does hold — whenever an operation's
runner has reached its terminal phase (past the Result write), the
Result record exists. -/
theorem C4_result_on_terminal {s : Sys} (hs : Reachable s) (id : String) {r : Runner}
    (hr : s.runners.lookup id = some r)
    (hrs : r.rs = RState.finMeta ∨ r.rs = RState.done) :
    (resultOf s id).isSome := by
  have hI := reachable_sysInv hs
  rw [resultOf, sqlReadOpt_isSome]
  exact hI.resWf id r hr hrs

/-- C4 amended, at the finished demo run (runner returned). -/
theorem C4_result_on_terminal_witness : (resultOf sB4 "a").isSome :=
  C4_result_on_terminal sB4_reach "a" rfl (Or.inr rfl)

/-! ## Claim C1 -/

/-- The runner's next two micro-steps after the cancel of `sD1`: the
status poll compares only against `"paused"`, so the cancelled task
proceeds to work. -/
def sD2 : Sys := setR sD1 "a" ⟨1, RState.working 0⟩

def sD3 : Sys :=
  ⟨swrite (progKey "a") (dumps (J.obj [("step", J.i 1), ("total", J.i 1)])) sD2.store,
    alistSet sD2.runners "a" ⟨1, RState.run 1⟩,
    bumpCounter sD2.counters "ops_heartbeat_total"⟩

theorem sD2_exec : exec (Ev.rstep "a" 3) sD1 = some sD2 :=
  @runnerStep_run_go sD1 "a" 1 0 3 (objSet metaA "status" (J.s "cancelled"))
    rfl (by decide) (sread_swrite_self _ _ _) (by decide)

theorem sD3_exec : exec (Ev.rstep "a" 3) sD2 = some sD3 :=
  @runnerStep_working sD2 "a" 1 0 3 rfl

/-- C1 fails: with metadata status `cancelled` (set by
`cancel_operation`) and the runner in its work loop, the runner does
not observe the cancellation — its loop only compares the status
against `"paused"` — so it performs another work unit, writes a
progress update, does not terminate, and writes no Result. -/
theorem C1_counterexample :
    Reachable sD1 ∧ statusStr sD1 "a" = some "cancelled" ∧
    sD1.runners.lookup "a" = some ⟨1, RState.run 0⟩ ∧
    exec (Ev.rstep "a" 3) sD1 = some sD2 ∧
    exec (Ev.rstep "a" 3) sD2 = some sD3 ∧
    progOf sD1 "a" = some (0, 1) ∧
    progOf sD3 "a" = some (1, 1) ∧
    resultOf sD3 "a" = none ∧
    sD3.runners.lookup "a" = some ⟨1, RState.run 1⟩ :=
  ⟨sD1_reach,
    statusStr_of_sread (sread_swrite_self _ _ _) "cancelled"
      (objSet_lookup_self metaA "status" (J.s "cancelled")),
    rfl, sD2_exec, sD3_exec,
    progOf_of_sread (sread_swrite_ne (metaKey_ne_progKey "a" "a") _ _),
    progOf_of_sread rfl, rfl, rfl⟩

/-- C1 amended: cancellation is observed only in the pause-wait loop.
A runner waiting there under a `cancelled` status writes the
cancellation Result on its next poll, leaves the progress record
untouched, and terminates — and a terminated runner takes no further
steps. -/
theorem C1_cancel_in_pause_wait {s : Sys} {id : String} {dur : Int} {i : Nat} (t : Int)
    {fields : List (String × J)}
    (hr : s.runners.lookup id = some ⟨dur, RState.pauseWait i⟩)
    (hread : sread (metaKey id) s.store = some (dumps (J.obj fields)))
    (hst : objGet fields "status" = some (J.s "cancelled")) :
    ∃ s2, runnerStep s id t = some s2 ∧
      resultOf s2 id = some (J.obj [("status", J.s "cancelled")]) ∧
      s2.runners.lookup id = some ⟨dur, RState.done⟩ ∧
      runnerStep s2 id t = none ∧
      progOf s2 id = progOf s id := by
  refine ⟨_, runnerStep_wait_cancel t hr hread hst, ?_, ?_, ?_, ?_⟩
  · exact resultOf_of_sread (sread_swrite_self _ _ _)
  · exact alistSet_lookup_self _ _ _
  · exact runnerStep_done t (alistSet_lookup_self _ _ _)
  · exact progOf_congr id (sread_swrite_ne (Ne.symm (progKey_ne_resultKey id id)) _ _)

/-! witness scenario: pause, enter the wait loop, cancel -/

def metaG : List (String × J) :=
  [("status", J.s "running"), ("duration", J.i 2), ("created_at", J.i 0)]

def sG0 : Sys := start_operation initSys "a" 2 0 []

def sG1 : Sys :=
  ⟨swrite (metaKey "a") (dumps (J.obj (objSet metaG "status" (J.s "paused")))) sG0.store,
    sG0.runners, bumpCounter sG0.counters "ops_paused_total"⟩

def sG2 : Sys := setR sG1 "a" ⟨2, RState.pauseWait 0⟩

def sG3 : Sys :=
  ⟨swrite (metaKey "a")
      (dumps (J.obj (objSet (objSet metaG "status" (J.s "paused")) "status"
        (J.s "cancelled")))) sG2.store,
    sG2.runners, bumpCounter sG2.counters "ops_cancel_requested_total"⟩

theorem sG3_runner : sG3.runners.lookup "a" = some ⟨2, RState.pauseWait 0⟩ := rfl

theorem sG3_meta : sread (metaKey "a") sG3.store =
    some (dumps (J.obj (objSet (objSet metaG "status" (J.s "paused")) "status"
      (J.s "cancelled")))) := rfl

/-- C1 amended, at a concrete paused-then-cancelled operation. -/
theorem C1_cancel_in_pause_wait_witness :
    ∃ s2, runnerStep sG3 "a" 7 = some s2 ∧
      resultOf s2 "a" = some (J.obj [("status", J.s "cancelled")]) ∧
      s2.runners.lookup "a" = some ⟨2, RState.done⟩ ∧
      runnerStep s2 "a" 7 = none ∧
      progOf s2 "a" = progOf sG3 "a" :=
  C1_cancel_in_pause_wait 7 sG3_runner sG3_meta
    (objSet_lookup_self _ "status" (J.s "cancelled"))

/-! ## Claim C9 -/

/-- A start whose caller annotations include a `status` key. -/
def sH : Sys := start_operation initSys "a" 5 0 [("status", J.s "paused")]

/-- C9 fails: `start_operation` merges caller annotations with
`meta.update(metadata)` after setting the reserved fields, so a
caller-supplied `status` annotation overwrites `running` — the freshly
started operation (runner still at its first iteration, no work done)
reports status `paused`. -/
theorem C9_counterexample :
    Reachable sH ∧ sH.runners.lookup "a" = some ⟨5, RState.run 0⟩ ∧
    statusStr sH "a" = some "paused" :=
  ⟨⟨[Ev.start "a" 5 0 [("status", J.s "paused")]], rfl⟩, rfl,
    statusStr_of_sread
      (show sread (metaKey "a") sH.store = some (dumps (J.obj
        [("status", J.s "paused"), ("duration", J.i 5), ("created_at", J.i 0)]))
        from rfl)
      "paused" rfl⟩

/-- C9 amended: when the caller's annotations do not use the reserved
key `status`, a fresh start writes metadata with status `running` and
progress `{step 0, total duration}`, and `list_operations` then shows
exactly that id, joined with that progress record and no result. -/
theorem C9_start_fresh (dur t : Int) (md : List (String × J))
    (hst : md.lookup "status" = none) :
    statusStr (start_operation initSys "a" dur t md) "a" = some "running" ∧
    progOf (start_operation initSys "a" dur t md) "a" = some (0, dur) ∧
    list_operations (start_operation initSys "a" dur t md) =
      [("a", ⟨J.obj (dictUpdate
          [("status", J.s "running"), ("duration", J.i dur), ("created_at", J.i t)] md),
        some (J.obj [("step", J.i 0), ("total", J.i dur)]), none⟩)] := by
  refine ⟨?_, progOf_of_sread rfl, ?_⟩
  · refine statusStr_of_sread (show sread (metaKey "a")
      (start_operation initSys "a" dur t md).store = some (dumps (J.obj (dictUpdate
        [("status", J.s "running"), ("duration", J.i dur), ("created_at", J.i t)] md)))
      from rfl) "running" ?_
    rw [objGet, dictUpdate_lookup_none hst]
    rfl
  · rw [list_operations]
    rw [show (start_operation initSys "a" dur t md).store =
      [(metaKey "a", dumps (J.obj (dictUpdate
          [("status", J.s "running"), ("duration", J.i dur), ("created_at", J.i t)] md))),
       (progKey "a", dumps (J.obj [("step", J.i 0), ("total", J.i dur)]))] from rfl]
    rw [sqlAll]
    simp only [List.map_cons, List.map_nil, loads_dumps]
    simp only [List.foldl_cons, List.foldl_nil]
    simp only [show isMetaKey (metaKey "a") = true from by decide,
      show isMetaKey (progKey "a") = false from by decide,
      show extractId (metaKey "a") = "a" from by decide,
      if_true, if_false]
    show alistSet [] "a" (viewFor (start_operation initSys "a" dur t md) "a" _) = _
    rw [show ∀ v : OpView, alistSet [] "a" v = [("a", v)] from fun v => rfl]
    rw [viewFor]
    rw [show sqlReadOpt (start_operation initSys "a" dur t md).store (progKey "a") =
      some (J.obj [("step", J.i 0), ("total", J.i dur)]) from sqlReadOpt_of_sread rfl]
    rw [show sqlReadOpt (start_operation initSys "a" dur t md).store (resultKey "a") =
      none from rfl]

/-- C9 amended, at a concrete start with a non-reserved annotation. -/
theorem C9_start_fresh_witness :
    statusStr (start_operation initSys "a" 3 7 [("note", J.s "x")]) "a" = some "running" ∧
    progOf (start_operation initSys "a" 3 7 [("note", J.s "x")]) "a" = some (0, 3) ∧
    list_operations (start_operation initSys "a" 3 7 [("note", J.s "x")]) =
      [("a", ⟨J.obj (dictUpdate
          [("status", J.s "running"), ("duration", J.i 3), ("created_at", J.i 7)]
          [("note", J.s "x")]),
        some (J.obj [("step", J.i 0), ("total", J.i 3)]), none⟩)] :=
  C9_start_fresh 3 7 [("note", J.s "x")] rfl
